import Mathlib

/-!
Verification development for the Drive-Thru Optimizer simulation core
(single source file of the repository).  The embedding translates the
core functions of the source file: the lane advisor (chooseBestLane),
the spot allocator (chooseParkingSpot), the rebalancer
(rebalanceServers), the Erlang-C analytic estimator (erlangC,
expectedWaitMinutes), and the simulation engine (step / reset).

Modelling conventions:
* JavaScript numbers are modelled by exact rationals extended with the
  IEEE special values NaN, +Infinity and -Infinity (type JsNum below);
  floating-point rounding is idealised away, so literals such as 1e-6
  and 0.55 are the exact rationals 1/1000000 and 11/20.
* Server counts are modelled as integers: every write the program
  performs on them (initialisation to 1, Math.round at the input
  boundary, the +-1 moves of the rebalancer) keeps them integral.
* The randomness consumed by the engine (interarrival draws, the
  mobile-flag Bernoulli draw, uid(), the curbside ready-time draw and
  the rebalance coin) is supplied explicitly as an input stream, so
  the engine step is a pure function of state and stream.
* Reads of the simulated clock inside a step observe the value the
  step started from (the source reads the captured state variable and
  only schedules the increment); the step result carries the advanced
  clock.
-/

/-- Model of a JavaScript number as used by the simulation core: an
exact rational, or one of the IEEE special values. -/
inductive JsNum where
  | nan : JsNum
  | inf : JsNum
  | ninf : JsNum
  | num : ℚ → JsNum
deriving DecidableEq

namespace JsNum

/-- IEEE addition on the modelled values. -/
def jadd : JsNum → JsNum → JsNum
  | nan, _ => nan
  | _, nan => nan
  | inf, ninf => nan
  | ninf, inf => nan
  | inf, _ => inf
  | _, inf => inf
  | ninf, _ => ninf
  | _, ninf => ninf
  | num a, num b => num (a + b)

/-- IEEE negation. -/
def jneg : JsNum → JsNum
  | nan => nan
  | inf => ninf
  | ninf => inf
  | num a => num (-a)

/-- IEEE subtraction. -/
def jsub (a b : JsNum) : JsNum := jadd a (jneg b)

/-- IEEE multiplication (Infinity times zero is NaN). -/
def jmul : JsNum → JsNum → JsNum
  | nan, _ => nan
  | _, nan => nan
  | inf, inf => inf
  | inf, ninf => ninf
  | ninf, inf => ninf
  | ninf, ninf => inf
  | inf, num b => if b = 0 then nan else if 0 < b then inf else ninf
  | num a, inf => if a = 0 then nan else if 0 < a then inf else ninf
  | ninf, num b => if b = 0 then nan else if 0 < b then ninf else inf
  | num a, ninf => if a = 0 then nan else if 0 < a then ninf else inf
  | num a, num b => num (a * b)

/-- IEEE strict comparison: any comparison with NaN is false. -/
def jlt : JsNum → JsNum → Bool
  | nan, _ => false
  | _, nan => false
  | inf, _ => false
  | _, inf => true
  | ninf, ninf => false
  | ninf, _ => true
  | _, ninf => false
  | num a, num b => decide (a < b)

/-- IEEE non-strict comparison: any comparison with NaN is false. -/
def jle : JsNum → JsNum → Bool
  | nan, _ => false
  | _, nan => false
  | _, inf => true
  | inf, _ => false
  | ninf, _ => true
  | _, ninf => false
  | num a, num b => decide (a ≤ b)

/-- JavaScript strict greater-than, defined from jlt as in IEEE. -/
def jgt (a b : JsNum) : Bool := jlt b a

/-- Math.max semantics: NaN absorbs, otherwise the larger value. -/
def jmax (a b : JsNum) : JsNum :=
  match a, b with
  | nan, _ => nan
  | _, nan => nan
  | x, y => if jlt x y then y else x

/-- JavaScript division of two rational-valued numbers: division by
zero yields a signed infinity (or NaN for 0/0). -/
def jdivQ (a b : ℚ) : JsNum :=
  if b = 0 then (if a = 0 then nan else if 0 < a then inf else ninf)
  else num (a / b)

end JsNum

/-! ## Analytic estimator (Erlang C)

Embeds the source functions fact, erlangC and expectedWaitMinutes.
The server count is typed as an integer (see the header note); at
every call of Math.pow with exponent s the guards have already
established s >= 1, so the power is the natural-number power. -/

/-- Embedding of the source helper fact: r = 1; for i = 2..n, r := r*i. -/
def fact (n : ℤ) : ℚ :=
  (List.range' 2 (n.toNat - 1)).foldl (fun (r : ℚ) (i : ℕ) => r * (i : ℚ)) 1

/-- Embedding of the source function erlangC. -/
def erlangC (lam mu : ℚ) (s : ℤ) : ℚ :=
  if s ≤ 0 ∨ mu ≤ 0 then 1
  else
    let rho : ℚ := lam / (s * mu)
    if 1 ≤ rho then 1
    else
      let sum : ℚ :=
        (List.range s.toNat).foldl
          (fun (acc : ℚ) (k : ℕ) => acc + (lam / mu) ^ k / fact (k : ℤ)) 0
      let erlB : ℚ := (lam / mu) ^ s.toNat / (fact s * (1 - rho))
      erlB * (1 / (sum + erlB))

/-- Embedding of the source function expectedWaitMinutes; the
+Infinity sentinel is the JsNum value inf. -/
def expectedWaitMinutes (lam mu : ℚ) (s : ℤ) : JsNum :=
  if s ≤ 0 ∨ mu ≤ 0 then JsNum.inf
  else
    let C := erlangC lam mu s
    let rho : ℚ := lam / (s * mu)
    if 1 ≤ rho then JsNum.inf
    else JsNum.num (C / (s * mu - lam))

/-- Modelled from the spec: the standard finite-sum Erlang-C formula
(offered load a, the sum of a^k/k! for k < s, plus the Erlang-B term
a^s/(s!(1-rho)), returning the normalised probability). -/
def erlangCSpec (lam mu : ℚ) (s : ℕ) : ℚ :=
  let a : ℚ := lam / mu
  let rho : ℚ := lam / (s * mu)
  let b : ℚ := a ^ s / (Nat.factorial s * (1 - rho))
  b / ((Finset.range s).sum (fun k => a ^ k / Nat.factorial k) + b)

lemma foldl_range'_mul (c : ℚ) (k : ℕ) :
    (List.range' 2 k).foldl (fun (r : ℚ) (i : ℕ) => r * (i : ℚ)) c
      = c * Nat.factorial (k + 1) := by
  induction k generalizing c with
  | zero => simp [Nat.factorial]
  | succ k ih =>
      rw [List.range'_concat, List.foldl_append, ih]
      simp only [List.foldl_cons, List.foldl_nil, Nat.factorial_succ]
      push_cast
      ring

lemma fact_eq_factorial (n : ℕ) : fact (n : ℤ) = Nat.factorial n := by
  cases n with
  | zero => simp [fact]
  | succ m =>
      have h : ((m + 1 : ℕ) : ℤ).toNat - 1 = m := by omega
      rw [fact, h, foldl_range'_mul]
      simp

lemma foldl_add_range (f : ℕ → ℚ) (n : ℕ) (c : ℚ) :
    (List.range n).foldl (fun acc k => acc + f k) c = c + (Finset.range n).sum f := by
  induction n generalizing c with
  | zero => simp
  | succ n ih =>
      rw [List.range_succ, List.foldl_append, ih]
      simp only [List.foldl_cons, List.foldl_nil, Finset.sum_range_succ]
      ring

/-- C3: for every input with s ≤ 0 or mu ≤ 0, erlangC returns 1 and
expectedWaitMinutes returns +Infinity; and for every input with
lam/(s*mu) ≥ 1, erlangC returns 1 and expectedWaitMinutes returns
+Infinity (the sentinel value, never a negative value or NaN). -/
theorem erlangC_degenerate_guards (lam mu : ℚ) (s : ℤ) :
    ((s ≤ 0 ∨ mu ≤ 0) →
      erlangC lam mu s = 1 ∧ expectedWaitMinutes lam mu s = JsNum.inf) ∧
    (1 ≤ lam / ((s : ℚ) * mu) →
      erlangC lam mu s = 1 ∧ expectedWaitMinutes lam mu s = JsNum.inf) := by
  constructor
  · intro h
    constructor <;> simp [erlangC, expectedWaitMinutes, h]
  · intro h
    by_cases hd : s ≤ 0 ∨ mu ≤ 0
    · constructor <;> simp [erlangC, expectedWaitMinutes, hd]
    · constructor <;> simp [erlangC, expectedWaitMinutes, hd, h]

/-- Witness for C3 at two concrete inputs: s = 0 triggers the first
guard, and lam = 3, mu = 1, s = 1 (utilisation 3) triggers the second. -/
theorem erlangC_degenerate_guards_witness :
    (erlangC 2 1 0 = 1 ∧ expectedWaitMinutes 2 1 0 = JsNum.inf) ∧
    (erlangC 3 1 1 = 1 ∧ expectedWaitMinutes 3 1 1 = JsNum.inf) :=
  ⟨(erlangC_degenerate_guards 2 1 0).1 (Or.inl (by norm_num)),
   (erlangC_degenerate_guards 3 1 1).2 (by norm_num)⟩

lemma erlangC_eq_spec (lam mu : ℚ) (s : ℤ)
    (hs : 1 ≤ s) (hmu : 0 < mu)
    (hrho : lam / ((s : ℚ) * mu) < 1) :
    erlangC lam mu s = erlangCSpec lam mu s.toNat := by
  have hg : ¬ (s ≤ 0 ∨ mu ≤ 0) := by
    push_neg
    exact ⟨by omega, hmu⟩
  have hs0 : (0 : ℤ) ≤ s := by omega
  have hsn : ((s.toNat : ℚ)) = (s : ℚ) := by
    exact_mod_cast congrArg (fun n : ℤ => (n : ℚ)) (Int.toNat_of_nonneg hs0)
  have hr : ¬ (1 ≤ lam / ((s : ℚ) * mu)) := not_le.mpr hrho
  have hfs : fact s = Nat.factorial s.toNat := by
    conv_lhs => rw [show s = (s.toNat : ℤ) from (Int.toNat_of_nonneg hs0).symm]
    exact fact_eq_factorial s.toNat
  simp only [erlangC, if_neg hg, if_neg hr, erlangCSpec]
  rw [foldl_add_range, zero_add, hfs, hsn, mul_one_div]
  have hsum : (Finset.range s.toNat).sum (fun k => (lam / mu) ^ k / fact (k : ℤ))
      = (Finset.range s.toNat).sum
          (fun k => (lam / mu) ^ k / (Nat.factorial k : ℚ)) :=
    Finset.sum_congr rfl (fun k _ => by rw [fact_eq_factorial])
  rw [hsum]

lemma expectedWait_stable (lam mu : ℚ) (s : ℤ)
    (hs : 1 ≤ s) (hmu : 0 < mu)
    (hrho : lam / ((s : ℚ) * mu) < 1) :
    expectedWaitMinutes lam mu s
      = JsNum.num (erlangC lam mu s / ((s : ℚ) * mu - lam)) := by
  have hg : ¬ (s ≤ 0 ∨ mu ≤ 0) := by
    push_neg
    exact ⟨by omega, hmu⟩
  have hr : ¬ (1 ≤ lam / ((s : ℚ) * mu)) := not_le.mpr hrho
  simp only [expectedWaitMinutes, if_neg hg, if_neg hr]

/-- C4: for every stable input (integer s ≥ 1, mu > 0, 0 ≤ lam,
lam/(s*mu) < 1), erlangC equals the standard finite-sum Erlang-C
formula, and expectedWaitMinutes equals erlangC/(s*mu - lam). -/
theorem erlangC_stable_formula (lam mu : ℚ) (s : ℤ)
    (hs : 1 ≤ s) (hmu : 0 < mu) (hlam : 0 ≤ lam)
    (hrho : lam / ((s : ℚ) * mu) < 1) :
    erlangC lam mu s = erlangCSpec lam mu s.toNat ∧
    expectedWaitMinutes lam mu s
      = JsNum.num (erlangC lam mu s / ((s : ℚ) * mu - lam)) :=
  ⟨erlangC_eq_spec lam mu s hs hmu hrho, expectedWait_stable lam mu s hs hmu hrho⟩

/-- Witness for C4 at lam = 1/2, mu = 1, s = 1. -/
theorem erlangC_stable_formula_witness :
    erlangC (1/2) 1 1 = erlangCSpec (1/2) 1 (Int.toNat 1) ∧
    expectedWaitMinutes (1/2) 1 1
      = JsNum.num (erlangC (1/2) 1 1 / ((1 : ℚ) * 1 - 1/2)) := by
  have h := erlangC_stable_formula (1/2) 1 1 (by norm_num) (by norm_num)
    (by norm_num) (by norm_num)
  simpa using h

/-! ## The estimator at lam = 1/2, mu = 1 (claim C8) -/

/-- Partial Erlang sum at offered load 1/2. -/
def halfS (n : ℕ) : ℚ :=
  (Finset.range n).sum (fun k => (1/2 : ℚ) ^ k / Nat.factorial k)

/-- Erlang-B style term at offered load 1/2, server count n. -/
def halfB (n : ℕ) : ℚ :=
  (1/2 : ℚ) ^ n / (Nat.factorial n * (1 - (1/2) / (n : ℚ)))

/-- Value of erlangC at lam = 1/2, mu = 1, s = n. -/
def halfC (n : ℕ) : ℚ := halfB n / (halfS n + halfB n)

/-- Value of expectedWaitMinutes at lam = 1/2, mu = 1, s = n. -/
def halfW (n : ℕ) : ℚ := halfC n / ((n : ℚ) - 1/2)

lemma erlangCSpec_half (n : ℕ) : erlangCSpec (1/2) 1 n = halfC n := by
  simp only [erlangCSpec, halfC, halfB, halfS]
  norm_num

lemma half_rho_lt_one (n : ℕ) (hn : 1 ≤ n) : (1/2 : ℚ) / ((n : ℚ) * 1) < 1 := by
  have hq : (1 : ℚ) ≤ (n : ℚ) := by exact_mod_cast hn
  have h : (1/2 : ℚ) / (n : ℚ) ≤ 1/2 := div_le_self (by norm_num) hq
  rw [mul_one]
  linarith

lemma erlangC_half (n : ℕ) (hn : 1 ≤ n) : erlangC (1/2) 1 (n : ℤ) = halfC n := by
  have h1 : (1 : ℤ) ≤ (n : ℤ) := by exact_mod_cast hn
  have h := erlangC_eq_spec (1/2) 1 (n : ℤ) h1 (by norm_num)
    (by push_cast; exact half_rho_lt_one n hn)
  rw [h, Int.toNat_natCast, erlangCSpec_half]

lemma expectedWait_half (n : ℕ) (hn : 1 ≤ n) :
    expectedWaitMinutes (1/2) 1 (n : ℤ) = JsNum.num (halfW n) := by
  have h1 : (1 : ℤ) ≤ (n : ℤ) := by exact_mod_cast hn
  have h := expectedWait_stable (1/2) 1 (n : ℤ) h1 (by norm_num)
    (by push_cast; exact half_rho_lt_one n hn)
  rw [h, erlangC_half n hn]
  unfold halfW
  norm_num

lemma one_le_halfS (n : ℕ) (hn : 1 ≤ n) : 1 ≤ halfS n := by
  have h0 : (0 : ℕ) ∈ Finset.range n := Finset.mem_range.mpr (by omega)
  have h := Finset.single_le_sum (f := fun k => (1/2 : ℚ) ^ k / Nat.factorial k)
    (fun i _ => by positivity) h0
  simpa [halfS] using h

lemma halfDen_pos (n : ℕ) (hn : 1 ≤ n) : (0 : ℚ) < 1 - (1/2) / (n : ℚ) := by
  have hq : (1 : ℚ) ≤ (n : ℚ) := by exact_mod_cast hn
  have h : (1/2 : ℚ) / (n : ℚ) ≤ 1/2 := div_le_self (by norm_num) hq
  linarith

lemma halfB_pos (n : ℕ) (hn : 1 ≤ n) : 0 < halfB n := by
  have hd := halfDen_pos n hn
  have hf : (0 : ℚ) < Nat.factorial n := by exact_mod_cast Nat.factorial_pos n
  exact div_pos (by positivity) (mul_pos hf hd)

lemma halfC_pos (n : ℕ) (hn : 1 ≤ n) : 0 < halfC n := by
  have hB := halfB_pos n hn
  have hS := one_le_halfS n hn
  exact div_pos hB (by linarith)

lemma halfC_lt_one (n : ℕ) (hn : 1 ≤ n) : halfC n < 1 := by
  have hB := halfB_pos n hn
  have hS := one_le_halfS n hn
  rw [halfC, div_lt_one (by linarith)]
  linarith

lemma halfS_le_succ (n : ℕ) : halfS n ≤ halfS (n + 1) := by
  have h : (0 : ℚ) ≤ (1/2 : ℚ) ^ n / Nat.factorial n := by positivity
  simp only [halfS, Finset.sum_range_succ]
  linarith

lemma halfB_succ_le (n : ℕ) (hn : 1 ≤ n) : halfB (n + 1) ≤ halfB n := by
  have hq : (1 : ℚ) ≤ (n : ℚ) := by exact_mod_cast hn
  have hd1 := halfDen_pos n hn
  have hd2 : (0 : ℚ) < 1 - (1/2) / ((n : ℚ) + 1) := by
    have h : (1/2 : ℚ) / ((n : ℚ) + 1) ≤ 1/2 := div_le_self (by norm_num) (by linarith)
    linarith
  have hF : (0 : ℚ) < Nat.factorial n := by exact_mod_cast Nat.factorial_pos n
  have hP : (0 : ℚ) < (1/2 : ℚ) ^ n := by positivity
  have hcast : ((n + 1 : ℕ) : ℚ) = (n : ℚ) + 1 := by push_cast; ring
  rw [halfB, halfB, hcast, Nat.factorial_succ]
  push_cast
  rw [div_le_div_iff
      (mul_pos (mul_pos (by linarith) hF) hd2) (mul_pos hF hd1), pow_succ]
  have key : (1/2 : ℚ) * (1 - (1/2) / (n : ℚ))
      ≤ ((n : ℚ) + 1) * (1 - (1/2) / ((n : ℚ) + 1)) := by
    have h1 : ((n : ℚ) + 1) * (1 - (1/2) / ((n : ℚ) + 1)) = (n : ℚ) + 1/2 := by
      field_simp
      ring
    have h2 : (0 : ℚ) ≤ (1/2) / (n : ℚ) := by positivity
    rw [h1]
    nlinarith
  nlinarith [mul_le_mul_of_nonneg_left key (le_of_lt (mul_pos hP hF))]

lemma halfC_succ_le (n : ℕ) (hn : 1 ≤ n) : halfC (n + 1) ≤ halfC n := by
  have hB := halfB_pos n hn
  have hB' := halfB_pos (n + 1) (by omega)
  have hS := one_le_halfS n hn
  have hS' := one_le_halfS (n + 1) (by omega)
  have hBB := halfB_succ_le n hn
  have hSS := halfS_le_succ n
  rw [halfC, halfC, div_le_div_iff (by linarith) (by linarith)]
  have h1 : halfB (n + 1) * halfS n ≤ halfB n * halfS (n + 1) := by
    calc halfB (n + 1) * halfS n ≤ halfB n * halfS n := by nlinarith
    _ ≤ halfB n * halfS (n + 1) := by nlinarith
  nlinarith

lemma halfW_succ_lt (n : ℕ) (hn : 1 ≤ n) : halfW (n + 1) < halfW n := by
  have hq : (1 : ℚ) ≤ (n : ℚ) := by exact_mod_cast hn
  have hd : (0 : ℚ) < (n : ℚ) - 1/2 := by linarith
  have hC' := halfC_pos (n + 1) (by omega)
  have hCC := halfC_succ_le n hn
  have hcast : ((n + 1 : ℕ) : ℚ) = (n : ℚ) + 1 := by push_cast; ring
  rw [halfW, halfW, hcast]
  calc halfC (n + 1) / ((n : ℚ) + 1 - 1/2)
      < halfC (n + 1) / ((n : ℚ) - 1/2) :=
        div_lt_div_of_pos_left hC' hd (by linarith)
    _ ≤ halfC n / ((n : ℚ) - 1/2) := (div_le_div_right hd).mpr hCC

/-- C8: at lam = 1/2, mu = 1, s = 1 the blocking probability is
strictly between 0 and 1 and the expected wait is finite and strictly
positive; and for every server count s ≥ 1 (all else equal), adding a
server strictly decreases expectedWaitMinutes. -/
theorem expectedWait_monotone_in_servers :
    (0 < erlangC (1/2) 1 1 ∧ erlangC (1/2) 1 1 < 1) ∧
    (∃ w : ℚ, expectedWaitMinutes (1/2) 1 1 = JsNum.num w ∧ 0 < w) ∧
    (∀ s : ℤ, 1 ≤ s →
      JsNum.jlt (expectedWaitMinutes (1/2) 1 (s + 1))
        (expectedWaitMinutes (1/2) 1 s) = true) := by
  refine ⟨⟨?_, ?_⟩, ⟨1, ?_, by norm_num⟩, ?_⟩
  · norm_num [erlangC, fact, List.range_succ]
  · norm_num [erlangC, fact, List.range_succ]
  · norm_num [expectedWaitMinutes, erlangC, fact, List.range_succ]
  · intro s hs
    lift s to ℕ using (by omega : (0 : ℤ) ≤ s) with n
    have hn : 1 ≤ n := by exact_mod_cast hs
    rw [show ((n : ℤ) + 1) = ((n + 1 : ℕ) : ℤ) by push_cast; ring,
      expectedWait_half (n + 1) (by omega), expectedWait_half n hn]
    simp only [JsNum.jlt, decide_eq_true_eq]
    exact halfW_succ_lt n hn

/-- Witness for C8 at s = 1: two servers give a strictly smaller
expected wait than one. -/
theorem expectedWait_monotone_in_servers_witness :
    JsNum.jlt (expectedWaitMinutes (1/2) 1 (1 + 1))
      (expectedWaitMinutes (1/2) 1 1) = true :=
  expectedWait_monotone_in_servers.2.2 1 (by norm_num)

/-! ## Data model of the simulation core -/

/-- One of the two parallel order lanes. -/
inductive Lane where
  | A : Lane
  | B : Lane
deriving DecidableEq

/-- A vehicle entity.  The source also writes a cosmetic string field
state on diverted cars; it is never read and is omitted here. -/
structure Car where
  id : ℕ
  arrival : ℚ
  isMobile : Bool
  lane : Option Lane
  progressOrder : Option ℚ
  progressPay : Option ℚ
  progressPickup : Option ℚ
  parkingSpotId : Option ℕ
  readyAt : Option ℚ
deriving DecidableEq

/-- A parking spot as generated by generateSpots. -/
structure Spot where
  id : ℕ
  x : ℚ
  y : ℚ
  occupied : Bool
  reserved : Bool
  exitFriction : ℚ
  localCongestion : ℚ
  backIn : Bool
deriving DecidableEq

/-- The queue network state: one FIFO list per stage. -/
structure Queues where
  orderA : List Car
  orderB : List Car
  pay : List Car
  pickup : List Car
  curbside : List Car
deriving DecidableEq

/-- The mutable parameter record.  Server counts are integers (see the
header note). -/
structure Params where
  arrivalRate : ℚ
  mobileShare : ℚ
  divertThresholdMin : ℚ
  orderRate : ℚ
  payRate : ℚ
  pickupRate : ℚ
  orderServersA : ℤ
  orderServersB : ℤ
  payServers : ℤ
  pickupServers : ℤ
  autoRebalance : Bool
deriving DecidableEq

/-- Access sys.queues.order[L]. -/
def orderQ (qs : Queues) : Lane → List Car
  | Lane.A => qs.orderA
  | Lane.B => qs.orderB

/-- Access sys.params.orderServers[L]. -/
def orderServers (p : Params) : Lane → ℤ
  | Lane.A => p.orderServersA
  | Lane.B => p.orderServersB

/-! ## Lane advisor -/

/-- Embedding of the source helper predictedQueueTime. -/
def predictedQueueTime (q : ℕ) (rate : ℚ) (servers : ℤ) : JsNum :=
  if rate ≤ 0 ∨ servers ≤ 0 then JsNum.inf
  else JsNum.num ((q : ℚ) / (rate * (servers : ℚ)))

/-- The scaling factor applied to the order delay for mobile arrivals. -/
def mobileFactor (isMobile : Bool) : ℚ := if isMobile then 11/20 else 1

/-- Embedding of the source function chooseBestLane: fold over the
lanes in the order A then B keeping the strictly better total. -/
def chooseBestLane (qs : Queues) (p : Params) (isMobile : Bool) : Lane × JsNum :=
  let mf : ℚ := mobileFactor isMobile
  [Lane.A, Lane.B].foldl
    (fun (acc : Lane × JsNum) (L : Lane) =>
      let tOrder := predictedQueueTime (orderQ qs L).length p.orderRate (orderServers p L)
      let tPay := predictedQueueTime qs.pay.length p.payRate p.payServers
      let tPickup := predictedQueueTime qs.pickup.length p.pickupRate p.pickupServers
      let total := JsNum.jadd (JsNum.jadd (JsNum.jmul tOrder (JsNum.num mf)) tPay) tPickup
      if JsNum.jlt total acc.2 then (L, total) else acc)
    (Lane.A, JsNum.inf)

/-- The total predicted delay the chooseBestLane loop body computes
for one lane. -/
def laneTotal (qs : Queues) (p : Params) (mf : ℚ) (L : Lane) : JsNum :=
  JsNum.jadd
    (JsNum.jadd
      (JsNum.jmul
        (predictedQueueTime (orderQ qs L).length p.orderRate (orderServers p L))
        (JsNum.num mf))
      (predictedQueueTime qs.pay.length p.payRate p.payServers))
    (predictedQueueTime qs.pickup.length p.pickupRate p.pickupServers)

lemma predictedQueueTime_shape (q : ℕ) (rate : ℚ) (servers : ℤ) :
    predictedQueueTime q rate servers = JsNum.inf ∨
    ∃ a : ℚ, predictedQueueTime q rate servers = JsNum.num a := by
  unfold predictedQueueTime
  by_cases h : rate ≤ 0 ∨ servers ≤ 0
  · left
    simp [h]
  · right
    exact ⟨(q : ℚ) / (rate * (servers : ℚ)), by simp [h]⟩

lemma laneTotal_shape (qs : Queues) (p : Params) (mf : ℚ) (hmf : 0 < mf) (L : Lane) :
    laneTotal qs p mf L = JsNum.inf ∨
    ∃ a : ℚ, laneTotal qs p mf L = JsNum.num a := by
  unfold laneTotal
  rcases predictedQueueTime_shape (orderQ qs L).length p.orderRate (orderServers p L)
    with h1 | ⟨a1, h1⟩ <;>
  rcases predictedQueueTime_shape qs.pay.length p.payRate p.payServers
    with h2 | ⟨a2, h2⟩ <;>
  rcases predictedQueueTime_shape qs.pickup.length p.pickupRate p.pickupServers
    with h3 | ⟨a3, h3⟩ <;>
  rw [h1, h2, h3] <;>
  simp [JsNum.jmul, JsNum.jadd, ne_of_gt hmf, hmf]

lemma mobileFactor_pos (m : Bool) : 0 < mobileFactor m := by
  cases m <;> norm_num [mobileFactor]

lemma chooseBestLane_eq (qs : Queues) (p : Params) (m : Bool) :
    chooseBestLane qs p m =
      if JsNum.jlt (laneTotal qs p (mobileFactor m) Lane.B)
          (laneTotal qs p (mobileFactor m) Lane.A) = true
      then (Lane.B, laneTotal qs p (mobileFactor m) Lane.B)
      else (Lane.A, laneTotal qs p (mobileFactor m) Lane.A) := by
  have hshape := laneTotal_shape qs p (mobileFactor m) (mobileFactor_pos m) Lane.A
  simp only [chooseBestLane, List.foldl_cons, List.foldl_nil]
  rcases hshape with hA | ⟨a, hA⟩ <;>
    simp only [laneTotal] at hA <;>
    rw [hA] <;>
    simp [JsNum.jlt, laneTotal, hA]

/-- C5: chooseBestLane computes, for each lane in the order A then B,
the total predicted delay mobileFactor*(orderQueue/(orderRate*servers))
+ payQueue/(payRate*payServers) + pickupQueue/(pickupRate*pickupServers),
each ratio being +Infinity when its rate or server count is
non-positive and mobileFactor < 1 exactly for mobile arrivals; it
returns the lane with the strictly lower total and lane A on a tie.
The embedded function is pure, so the stated equality also gives that
repeated calls with identical queue lengths and parameters return the
same (lane, eta) pair. -/
theorem chooseBestLane_spec (qs : Queues) (p : Params) (m : Bool) :
    (chooseBestLane qs p m =
      (let mf : ℚ := if m then 11/20 else 1
       let tPay : JsNum := if p.payRate ≤ 0 ∨ p.payServers ≤ 0 then JsNum.inf
         else JsNum.num ((qs.pay.length : ℚ) / (p.payRate * (p.payServers : ℚ)))
       let tPickup : JsNum :=
         if p.pickupRate ≤ 0 ∨ p.pickupServers ≤ 0 then JsNum.inf
         else JsNum.num ((qs.pickup.length : ℚ) / (p.pickupRate * (p.pickupServers : ℚ)))
       let tOrderA : JsNum :=
         if p.orderRate ≤ 0 ∨ p.orderServersA ≤ 0 then JsNum.inf
         else JsNum.num ((qs.orderA.length : ℚ) / (p.orderRate * (p.orderServersA : ℚ)))
       let tOrderB : JsNum :=
         if p.orderRate ≤ 0 ∨ p.orderServersB ≤ 0 then JsNum.inf
         else JsNum.num ((qs.orderB.length : ℚ) / (p.orderRate * (p.orderServersB : ℚ)))
       let totalA :=
         JsNum.jadd (JsNum.jadd (JsNum.jmul tOrderA (JsNum.num mf)) tPay) tPickup
       let totalB :=
         JsNum.jadd (JsNum.jadd (JsNum.jmul tOrderB (JsNum.num mf)) tPay) tPickup
       if JsNum.jlt totalB totalA = true then (Lane.B, totalB)
       else (Lane.A, totalA))) ∧
    ((if m then (11/20 : ℚ) else 1) < 1 ↔ m = true) := by
  constructor
  · rw [chooseBestLane_eq]
    simp only [laneTotal, predictedQueueTime, orderQ, orderServers, mobileFactor]
  · cases m <;> norm_num

/-- C10: for every state in which both lane totals are +Infinity,
chooseBestLane still returns the well-defined pair (lane A, eta =
+Infinity): never NaN, never a negative eta, never an absent lane. -/
theorem chooseBestLane_defined_when_saturated (qs : Queues) (p : Params) (m : Bool)
    (hA : laneTotal qs p (mobileFactor m) Lane.A = JsNum.inf)
    (hB : laneTotal qs p (mobileFactor m) Lane.B = JsNum.inf) :
    chooseBestLane qs p m = (Lane.A, JsNum.inf) := by
  rw [chooseBestLane_eq, hA, hB]
  simp [JsNum.jlt]

/-- Witness for C10: with a zero pay service rate both lane totals are
infinite and the advisor returns lane A with an infinite eta. -/
theorem chooseBestLane_defined_when_saturated_witness :
    chooseBestLane ⟨[], [], [], [], []⟩ ⟨36, 0, 7, 1, 0, 1, 1, 1, 1, 1, true⟩ false
      = (Lane.A, JsNum.inf) :=
  chooseBestLane_defined_when_saturated ⟨[], [], [], [], []⟩
    ⟨36, 0, 7, 1, 0, 1, 1, 1, 1, 1, true⟩ false
    (by norm_num [laneTotal, predictedQueueTime, orderQ, orderServers,
      mobileFactor, JsNum.jmul, JsNum.jadd])
    (by norm_num [laneTotal, predictedQueueTime, orderQ, orderServers,
      mobileFactor, JsNum.jmul, JsNum.jadd])

/-! ## Rebalancer -/

/-- The four rebalanceable stages, in the insertion order of the
pressure object literal of the source. -/
inductive Stage where
  | orderA : Stage
  | orderB : Stage
  | pay : Stage
  | pickup : Stage
deriving DecidableEq

/-- The source helper util: q / (rate*s + 1e-6) when s > 0, Infinity
otherwise; JavaScript division semantics apply if the denominator is
zero. -/
def utilPressure (q : ℕ) (rate : ℚ) (s : ℤ) : JsNum :=
  if 0 < s then JsNum.jdivQ (q : ℚ) (rate * (s : ℚ) + 1/1000000) else JsNum.inf

/-- The pressure table, in the enumeration order of Object.entries on
the source object literal. -/
def pressures (qs : Queues) (p : Params) : List (Stage × JsNum) :=
  [(Stage.orderA, utilPressure qs.orderA.length p.orderRate p.orderServersA),
   (Stage.orderB, utilPressure qs.orderB.length p.orderRate p.orderServersB),
   (Stage.pay, utilPressure qs.pay.length p.payRate p.payServers),
   (Stage.pickup, utilPressure qs.pickup.length p.pickupRate p.pickupServers)]

/-- Stable insertion modelling Array.prototype.sort with the
comparator (a, b) => b.pressure - a.pressure: an element moves in
front of exactly those elements whose pressure is strictly smaller
(the ECMAScript SortCompare maps a NaN comparator value to 0, and the
sort is stable). -/
def insertDesc (x : Stage × JsNum) : List (Stage × JsNum) → List (Stage × JsNum)
  | [] => [x]
  | y :: ys => if JsNum.jgt x.2 y.2 then x :: y :: ys else y :: insertDesc x ys

/-- Stable sort by strictly descending pressure. -/
def sortDesc (l : List (Stage × JsNum)) : List (Stage × JsNum) :=
  l.foldl (fun acc x => insertDesc x acc) []

/-- Per-stage server-count read (the get closures of the source). -/
def stageGet (p : Params) : Stage → ℤ
  | Stage.orderA => p.orderServersA
  | Stage.orderB => p.orderServersB
  | Stage.pay => p.payServers
  | Stage.pickup => p.pickupServers

/-- Per-stage server-count write (the set closures of the source). -/
def stageSet (p : Params) : Stage → ℤ → Params
  | Stage.orderA, v => { p with orderServersA := v }
  | Stage.orderB, v => { p with orderServersB := v }
  | Stage.pay, v => { p with payServers := v }
  | Stage.pickup, v => { p with pickupServers := v }

/-- The donor scan of rebalanceServers: walk the reversed sorted
entries, skip the hottest stage, and let the first stage strictly
above the floor of 1 donate one server to the hottest stage. -/
def rebalanceScan (hottest : Stage) (p : Params) :
    List (Stage × JsNum) → Option (Stage × Stage) × Params
  | [] => (none, p)
  | (name, _) :: rest =>
    if name = hottest then rebalanceScan hottest p rest
    else if 1 < stageGet p name then
      let p1 := stageSet p name (stageGet p name - 1)
      (some (name, hottest), stageSet p1 hottest (stageGet p1 hottest + 1))
    else rebalanceScan hottest p rest

/-- Embedding of the source function rebalanceServers.  The source
mutates sys.params in place; the embedding returns the (from, to)
pair (or none) together with the updated parameter record. -/
def rebalanceServers (qs : Queues) (p : Params) : Option (Stage × Stage) × Params :=
  match sortDesc (pressures qs p) with
  | [] => (none, p)
  | (hottest, _) :: _ => rebalanceScan hottest p (sortDesc (pressures qs p)).reverse

/-- Total server count over the four stages. -/
def sumServers (p : Params) : ℤ :=
  p.orderServersA + p.orderServersB + p.payServers + p.pickupServers

/-- The stage the rebalancer treats as hottest. -/
def hottestStage (qs : Queues) (p : Params) : Option Stage :=
  (sortDesc (pressures qs p)).head?.map Prod.fst

lemma stageGet_stageSet_ne (p : Params) (st st' : Stage) (v : ℤ) (h : st ≠ st') :
    stageGet (stageSet p st v) st' = stageGet p st' := by
  cases st <;> cases st' <;> simp_all [stageGet, stageSet]

lemma rebalanceScan_some (hottest : Stage) (p : Params)
    (l : List (Stage × JsNum)) (d h : Stage) (p' : Params)
    (hres : rebalanceScan hottest p l = (some (d, h), p')) :
    h = hottest ∧ d ≠ hottest ∧ 1 < stageGet p d ∧
    p' = stageSet (stageSet p d (stageGet p d - 1)) hottest
          (stageGet p hottest + 1) := by
  induction l with
  | nil => simp [rebalanceScan] at hres
  | cons x rest ih =>
      obtain ⟨name, pr⟩ := x
      rw [rebalanceScan] at hres
      by_cases h1 : name = hottest
      · rw [if_pos h1] at hres
        exact ih hres
      · rw [if_neg h1] at hres
        by_cases h2 : 1 < stageGet p name
        · rw [if_pos h2] at hres
          simp only [Prod.mk.injEq, Option.some.injEq] at hres
          obtain ⟨⟨hd, hh⟩, hp⟩ := hres
          subst hd
          subst hh
          refine ⟨rfl, h1, h2, ?_⟩
          rw [← hp, stageGet_stageSet_ne p name hottest _ h1]
        · rw [if_neg h2] at hres
          exact ih hres

lemma rebalanceScan_none (hottest : Stage) (p : Params)
    (l : List (Stage × JsNum)) (p' : Params)
    (hres : rebalanceScan hottest p l = (none, p')) : p' = p := by
  induction l with
  | nil => simp [rebalanceScan] at hres; exact hres.symm
  | cons x rest ih =>
      obtain ⟨name, pr⟩ := x
      rw [rebalanceScan] at hres
      by_cases h1 : name = hottest
      · rw [if_pos h1] at hres
        exact ih hres
      · rw [if_neg h1] at hres
        by_cases h2 : 1 < stageGet p name
        · rw [if_pos h2] at hres
          simp at hres
        · rw [if_neg h2] at hres
          exact ih hres

lemma rebalanceScan_at_floor (hottest : Stage) (p : Params)
    (l : List (Stage × JsNum))
    (hfl : ∀ x ∈ l, x.1 ≠ hottest → ¬ 1 < stageGet p x.1) :
    rebalanceScan hottest p l = (none, p) := by
  induction l with
  | nil => rfl
  | cons x rest ih =>
      obtain ⟨name, pr⟩ := x
      rw [rebalanceScan]
      by_cases h1 : name = hottest
      · rw [if_pos h1]
        exact ih (fun y hy => hfl y (List.mem_cons_of_mem _ hy))
      · rw [if_neg h1, if_neg (hfl (name, pr) (List.mem_cons_self _ _) h1)]
        exact ih (fun y hy => hfl y (List.mem_cons_of_mem _ hy))

lemma sumServers_move (p : Params) (d h : Stage) (hdh : d ≠ h) :
    sumServers (stageSet (stageSet p d (stageGet p d - 1)) h (stageGet p h + 1))
      = sumServers p := by
  cases d <;> cases h <;> simp_all [stageSet, stageGet, sumServers] <;> ring

lemma stageGet_move (p : Params) (d h : Stage) (hdh : d ≠ h)
    (hfloor : ∀ st : Stage, 1 ≤ stageGet p st) (hd : 1 < stageGet p d)
    (st : Stage) :
    1 ≤ stageGet (stageSet (stageSet p d (stageGet p d - 1)) h
          (stageGet p h + 1)) st := by
  have h1 := hfloor st
  have h2 := hfloor h
  have h3 := hfloor d
  cases d <;> cases h <;> cases st <;>
    simp_all [stageSet, stageGet] <;> omega

lemma insertDesc_ne_nil (x : Stage × JsNum) (l : List (Stage × JsNum)) :
    insertDesc x l ≠ [] := by
  cases l with
  | nil => simp [insertDesc]
  | cons y ys =>
      rw [insertDesc]
      by_cases h : JsNum.jgt x.2 y.2 <;> simp [h]

lemma sortDesc_pressures_ne_nil (qs : Queues) (p : Params) :
    sortDesc (pressures qs p) ≠ [] := by
  rw [sortDesc, pressures]
  simp only [List.foldl_cons, List.foldl_nil]
  exact insertDesc_ne_nil _ _

/-- C1 counterexample: with pre-call server counts (orderA = 0,
orderB = 0, pay = 3, pickup = 1) and all queues empty, the two
zero-count stages have infinite pressure, orderA is picked as hottest,
pay donates a server to orderA, and the call returns a (from, to)
pair while leaving orderB at 0 servers, below the floor of 1.  This
refutes the claim as stated, which quantifies over every pre-call
assignment summing to T. -/
theorem rebalance_floor_counterexample :
    rebalanceServers ⟨[], [], [], [], []⟩ ⟨36, 0, 7, 1, 1, 1, 0, 0, 3, 1, true⟩
      = (some (Stage.pay, Stage.orderA), ⟨36, 0, 7, 1, 1, 1, 1, 0, 2, 1, true⟩) ∧
    ¬ (1 : ℤ) ≤ (⟨36, 0, 7, 1, 1, 1, 1, 0, 2, 1, true⟩ : Params).orderServersB := by
  constructor
  · norm_num [rebalanceServers, sortDesc, pressures, insertDesc, utilPressure,
      JsNum.jgt, JsNum.jlt, JsNum.jdivQ, rebalanceScan, stageGet, stageSet]
    decide
  · decide

/-- C1 (amended): provided every pre-call server count is at least 1
(the invariant the surrounding application maintains), a rebalance
call returning a (from, to) pair leaves the four counts summing to
the same total and every count at least 1; a call returning null
changes no count; and if every non-hottest stage is already at the
floor of 1 the call returns null with unchanged counts. -/
theorem rebalance_conserves_and_floors (qs : Queues) (p : Params)
    (hfloor : ∀ st : Stage, 1 ≤ stageGet p st) :
    (∀ d h p', rebalanceServers qs p = (some (d, h), p') →
      sumServers p' = sumServers p ∧ ∀ st : Stage, 1 ≤ stageGet p' st) ∧
    ((rebalanceServers qs p).1 = none → (rebalanceServers qs p).2 = p) ∧
    (∀ h, hottestStage qs p = some h →
      (∀ st : Stage, st ≠ h → stageGet p st = 1) →
      rebalanceServers qs p = (none, p)) := by
  obtain ⟨hd0, rest, hsd⟩ : ∃ hd0 rest, sortDesc (pressures qs p) = hd0 :: rest := by
    cases hsd : sortDesc (pressures qs p) with
    | nil => exact absurd hsd (sortDesc_pressures_ne_nil qs p)
    | cons a l => exact ⟨a, l, rfl⟩
  obtain ⟨h0, pr0⟩ := hd0
  have hreb : rebalanceServers qs p
      = rebalanceScan h0 p (((h0, pr0) :: rest).reverse) := by
    simp only [rebalanceServers, hsd]
  refine ⟨?_, ?_, ?_⟩
  · intro d h p' hres
    rw [hreb] at hres
    obtain ⟨hh, hdh, hgt, hp'⟩ := rebalanceScan_some h0 p _ d h p' hres
    subst hh
    subst hp'
    exact ⟨sumServers_move p d h hdh, stageGet_move p d h hdh hfloor hgt⟩
  · intro hnone
    rw [hreb] at hnone ⊢
    have hE : rebalanceScan h0 p (((h0, pr0) :: rest).reverse)
        = (none, (rebalanceScan h0 p (((h0, pr0) :: rest).reverse)).2) := by
      rw [← hnone]
    exact rebalanceScan_none h0 p _ _ hE
  · intro h hh hall
    have hh0 : h = h0 := by
      rw [hottestStage, hsd] at hh
      simp at hh
      exact hh.symm
    subst hh0
    rw [hreb]
    exact rebalanceScan_at_floor h p _
      (fun x _ hx => by rw [hall x.1 hx]; omega)

/-- Witness for C1 at counts (orderA = 1, orderB = 2, pay = 1,
pickup = 1) with empty queues: orderA is hottest, orderB donates, the
total stays 5 and all counts stay at least 1. -/
theorem rebalance_conserves_and_floors_witness :
    sumServers ⟨36, 0, 7, 1, 1, 1, 2, 1, 1, 1, true⟩
        = sumServers ⟨36, 0, 7, 1, 1, 1, 1, 2, 1, 1, true⟩ ∧
    ∀ st : Stage, 1 ≤ stageGet ⟨36, 0, 7, 1, 1, 1, 2, 1, 1, 1, true⟩ st :=
  (rebalance_conserves_and_floors ⟨[], [], [], [], []⟩
      ⟨36, 0, 7, 1, 1, 1, 1, 2, 1, 1, true⟩
      (fun st => by cases st <;> norm_num [stageGet])).1
    Stage.orderB Stage.orderA ⟨36, 0, 7, 1, 1, 1, 2, 1, 1, 1, true⟩
    (by norm_num [rebalanceServers, sortDesc, pressures, insertDesc, utilPressure,
        JsNum.jgt, JsNum.jlt, JsNum.jdivQ, rebalanceScan, stageGet, stageSet]
        <;> decide)

/-! ## Spot allocator -/

section SpotAllocator

open Classical

/-- Weights of the spot score.  The source weight record has fields
dist, cong, angle and a fourth named like the ECMAScript keyword for
leaving a loop; that one is called exitW here. -/
structure SpotWeights where
  dist : ℚ
  exitW : ℚ
  cong : ℚ
  angle : ℚ
deriving DecidableEq

/-- The score the source computes for an eligible spot: the weighted
sum of the Euclidean distance (Math.hypot) to the entrance, the exit
friction, the local congestion and the 0.7 back-in penalty. -/
noncomputable def spotScore (entrance : ℚ × ℚ) (w : SpotWeights) (s : Spot) : ℝ :=
  (w.dist : ℝ) *
      Real.sqrt (((s.x - entrance.1 : ℚ) : ℝ) ^ 2 + ((s.y - entrance.2 : ℚ) : ℝ) ^ 2)
    + (w.exitW : ℝ) * (s.exitFriction : ℝ)
    + (w.cong : ℝ) * (s.localCongestion : ℝ)
    + (w.angle : ℝ) * (if s.backIn then (7/10 : ℝ) else 0)

/-- One iteration of the chooseParkingSpot loop.  The source starts
from best = null, bestScore = Infinity; the empty accumulator models
that pair, and it accepts the first eligible spot because every score
is a finite real, strictly below Infinity. -/
noncomputable def spotStep (entrance : ℚ × ℚ) (w : SpotWeights)
    (acc : Option (Spot × ℝ)) (s : Spot) : Option (Spot × ℝ) :=
  if s.occupied || s.reserved then acc
  else
    match acc with
    | none => some (s, spotScore entrance w s)
    | some (b, bs) =>
        if spotScore entrance w s < bs then some (s, spotScore entrance w s)
        else some (b, bs)

/-- Embedding of the source function chooseParkingSpot. -/
noncomputable def chooseParkingSpot (spots : List Spot) (entrance : ℚ × ℚ)
    (w : SpotWeights) : Option Spot :=
  (spots.foldl (spotStep entrance w) none).map Prod.fst

lemma foldSpot_invariant (entrance : ℚ × ℚ) (w : SpotWeights) (l : List Spot) :
    ∀ acc : Option (Spot × ℝ),
    (∀ b bs, acc = some (b, bs) → bs = spotScore entrance w b ∧
        b.occupied = false ∧ b.reserved = false) →
    ((l.foldl (spotStep entrance w) acc = none ↔
        acc = none ∧ ∀ s ∈ l, s.occupied = true ∨ s.reserved = true) ∧
     (∀ b bs, l.foldl (spotStep entrance w) acc = some (b, bs) →
        bs = spotScore entrance w b ∧ b.occupied = false ∧ b.reserved = false ∧
        (b ∈ l ∨ acc = some (b, bs)) ∧
        (∀ s ∈ l, s.occupied = false → s.reserved = false →
            bs ≤ spotScore entrance w s) ∧
        (∀ b0 bs0, acc = some (b0, bs0) → bs ≤ bs0))) := by
  induction l with
  | nil =>
      intro acc hacc
      constructor
      · simp
      · intro b bs hr
        simp only [List.foldl_nil] at hr
        obtain ⟨h1, h2, h3⟩ := hacc b bs hr
        refine ⟨h1, h2, h3, Or.inr hr, by simp, ?_⟩
        intro b0 bs0 h0
        rw [h0] at hr
        simp only [Option.some.injEq, Prod.mk.injEq] at hr
        exact le_of_eq hr.2.symm
  | cons x xs ih =>
      intro acc hacc
      rw [List.foldl_cons]
      by_cases hx : (x.occupied || x.reserved) = true
      · rw [show spotStep entrance w acc x = acc from by simp [spotStep, hx]]
        obtain ⟨ih1, ih2⟩ := ih acc hacc
        constructor
        · rw [ih1]
          constructor
          · rintro ⟨h1, h2⟩
            refine ⟨h1, ?_⟩
            intro s hs
            rcases List.mem_cons.mp hs with rfl | hs
            · simpa using Bool.or_eq_true_iff.mp hx
            · exact h2 s hs
          · rintro ⟨h1, h2⟩
            exact ⟨h1, fun s hs => h2 s (List.mem_cons_of_mem _ hs)⟩
        · intro b bs hr
          obtain ⟨h1, h2, h3, h4, h5, h6⟩ := ih2 b bs hr
          refine ⟨h1, h2, h3, h4.imp (List.mem_cons_of_mem _) id, ?_, h6⟩
          intro s hs ho hres
          rcases List.mem_cons.mp hs with rfl | hs
          · rw [ho, hres] at hx
            simp at hx
          · exact h5 s hs ho hres
      · have hxo : x.occupied = false ∧ x.reserved = false := by
          constructor <;> revert hx <;>
            cases x.occupied <;> cases x.reserved <;> simp
        rcases acc with _ | ⟨b0, bs0⟩
        · have hstep : spotStep entrance w none x
              = some (x, spotScore entrance w x) := by
            simp [spotStep, hx]
          rw [hstep]
          have hacc' : ∀ b bs, (some (x, spotScore entrance w x)
                : Option (Spot × ℝ)) = some (b, bs) →
              bs = spotScore entrance w b ∧
              b.occupied = false ∧ b.reserved = false := by
            intro b bs h
            simp only [Option.some.injEq, Prod.mk.injEq] at h
            obtain ⟨hb, hbs⟩ := h
            subst hb
            exact ⟨hbs.symm, hxo.1, hxo.2⟩
          obtain ⟨ih1, ih2⟩ := ih (some (x, spotScore entrance w x)) hacc'
          constructor
          · rw [ih1]
            constructor
            · rintro ⟨h1, -⟩
              exact absurd h1 (by simp)
            · rintro ⟨-, h2⟩
              have h3 := h2 x (List.mem_cons_self _ _)
              rw [hxo.1, hxo.2] at h3
              simp at h3
          · intro b bs hr
            obtain ⟨h1, h2, h3, h4, h5, h6⟩ := ih2 b bs hr
            refine ⟨h1, h2, h3, ?_, ?_, ?_⟩
            · rcases h4 with h4 | h4
              · exact Or.inl (List.mem_cons_of_mem _ h4)
              · simp only [Option.some.injEq, Prod.mk.injEq] at h4
                exact Or.inl (h4.1 ▸ List.mem_cons_self _ _)
            · intro s hs ho hres
              rcases List.mem_cons.mp hs with rfl | hs
              · exact h6 _ _ rfl
              · exact h5 s hs ho hres
            · intro b1 bs1 h0
              exact absurd h0 (by simp)
        · obtain ⟨hbs0, hbo0, hbr0⟩ := hacc b0 bs0 rfl
          by_cases hlt : spotScore entrance w x < bs0
          · have hstep : spotStep entrance w (some (b0, bs0)) x
                = some (x, spotScore entrance w x) := by
              simp [spotStep, hx, hlt]
            rw [hstep]
            have hacc' : ∀ b bs, (some (x, spotScore entrance w x)
                  : Option (Spot × ℝ)) = some (b, bs) →
                bs = spotScore entrance w b ∧
                b.occupied = false ∧ b.reserved = false := by
              intro b bs h
              simp only [Option.some.injEq, Prod.mk.injEq] at h
              obtain ⟨hb, hbs⟩ := h
              subst hb
              exact ⟨hbs.symm, hxo.1, hxo.2⟩
            obtain ⟨ih1, ih2⟩ := ih (some (x, spotScore entrance w x)) hacc'
            constructor
            · rw [ih1]
              constructor
              · rintro ⟨h1, -⟩
                exact absurd h1 (by simp)
              · rintro ⟨h1, -⟩
                exact absurd h1 (by simp)
            · intro b bs hr
              obtain ⟨h1, h2, h3, h4, h5, h6⟩ := ih2 b bs hr
              refine ⟨h1, h2, h3, ?_, ?_, ?_⟩
              · rcases h4 with h4 | h4
                · exact Or.inl (List.mem_cons_of_mem _ h4)
                · simp only [Option.some.injEq, Prod.mk.injEq] at h4
                  exact Or.inl (h4.1 ▸ List.mem_cons_self _ _)
              · intro s hs ho hres
                rcases List.mem_cons.mp hs with rfl | hs
                · exact h6 _ _ rfl
                · exact h5 s hs ho hres
              · intro b1 bs1 h0
                simp only [Option.some.injEq, Prod.mk.injEq] at h0
                have hbsx := h6 x (spotScore entrance w x) rfl
                rw [← h0.2]
                linarith
          · have hstep : spotStep entrance w (some (b0, bs0)) x
                = some (b0, bs0) := by
              simp [spotStep, hx, hlt]
            rw [hstep]
            obtain ⟨ih1, ih2⟩ := ih (some (b0, bs0)) hacc
            constructor
            · rw [ih1]
              constructor
              · rintro ⟨h1, -⟩
                exact absurd h1 (by simp)
              · rintro ⟨h1, -⟩
                exact absurd h1 (by simp)
            · intro b bs hr
              obtain ⟨h1, h2, h3, h4, h5, h6⟩ := ih2 b bs hr
              refine ⟨h1, h2, h3, h4.imp (List.mem_cons_of_mem _) id, ?_, h6⟩
              intro s hs ho hres
              rcases List.mem_cons.mp hs with rfl | hs
              · have hh := h6 b0 bs0 rfl
                have hge := not_lt.mp hlt
                linarith
              · exact h5 s hs ho hres

end SpotAllocator

/-- C7: chooseParkingSpot never returns a spot whose occupied or
reserved flag is true; among the spots with both flags false it
returns one minimising the weighted score (distance to the entrance,
exit friction, local congestion, back-in penalty), and it returns the
not-found value none exactly when no spot has both flags false.  The
embedding is a pure selection: the call itself mutates nothing (the
caller marks occupancy). -/
theorem chooseParkingSpot_spec (spots : List Spot) (entrance : ℚ × ℚ)
    (w : SpotWeights) :
    (∀ s, chooseParkingSpot spots entrance w = some s →
      s.occupied = false ∧ s.reserved = false ∧ s ∈ spots ∧
      ∀ s' ∈ spots, s'.occupied = false → s'.reserved = false →
        spotScore entrance w s ≤ spotScore entrance w s') ∧
    (chooseParkingSpot spots entrance w = none ↔
      ∀ s ∈ spots, s.occupied = true ∨ s.reserved = true) := by
  obtain ⟨h1, h2⟩ := foldSpot_invariant entrance w spots none (by simp)
  constructor
  · intro s hs
    rw [chooseParkingSpot] at hs
    rcases hmap : spots.foldl (spotStep entrance w) none with _ | ⟨b, bs⟩
    · rw [hmap] at hs
      simp at hs
    · rw [hmap] at hs
      simp only [Option.map_some'] at hs
      obtain ⟨hsc, hocc, hres, hmem, hmin, -⟩ := h2 b bs hmap
      have hbs : b = s := by simpa using hs
      subst hbs
      refine ⟨hocc, hres, ?_, ?_⟩
      · rcases hmem with hm | hm
        · exact hm
        · exact absurd hm (by simp)
      · intro s' hs' ho hr
        rw [← hsc]
        exact hmin s' hs' ho hr
  · rw [chooseParkingSpot, Option.map_eq_none', h1]
    simp

/-- Witness for C7: a one-element spot list whose spot is free and
unreserved; the allocator returns that spot, which is eligible, a
member of the list, and minimal among the eligible spots. -/
theorem chooseParkingSpot_spec_witness :
    (⟨1, 10, 20, false, false, 1/2, 1/4, false⟩ : Spot).occupied = false ∧
    (⟨1, 10, 20, false, false, 1/2, 1/4, false⟩ : Spot).reserved = false ∧
    (⟨1, 10, 20, false, false, 1/2, 1/4, false⟩ : Spot)
        ∈ [(⟨1, 10, 20, false, false, 1/2, 1/4, false⟩ : Spot)] ∧
    ∀ s' ∈ [(⟨1, 10, 20, false, false, 1/2, 1/4, false⟩ : Spot)],
      s'.occupied = false → s'.reserved = false →
      spotScore (6, 70) ⟨1, 3/5, 4/5, 1/5⟩ ⟨1, 10, 20, false, false, 1/2, 1/4, false⟩
        ≤ spotScore (6, 70) ⟨1, 3/5, 4/5, 1/5⟩ s' :=
  (chooseParkingSpot_spec [⟨1, 10, 20, false, false, 1/2, 1/4, false⟩] (6, 70)
      ⟨1, 3/5, 4/5, 1/5⟩).1 ⟨1, 10, 20, false, false, 1/2, 1/4, false⟩ rfl

/-! ## Simulation engine

The step function of the source is driven by Math.random in four
places: the exponential interarrival draws, the mobile-flag Bernoulli
draw together with uid(), the curbside ready-time draw rand(4, 10),
and the 5-percent rebalance coin.  The embedding receives all of
these as a pre-drawn finite input stream (RandInput); the arrivals
while-loop consumes one ArrivalDraw per admitted arrival and stops if
the stream runs out. -/

/-- Metrics record of the source (metrics.current). -/
structure Metrics where
  arrivals : ℕ
  served : ℕ
  parked : ℕ
  avgWait : ℚ
  maxWip : ℕ
  history : List (ℚ × ℕ × ℚ)
deriving DecidableEq

/-- One pre-drawn arrival: the sampled interarrival value of exp()
(that is, -log(1-u)/rate for the hidden uniform u), the Bernoulli
mobile flag, and the uid() of the car. -/
structure ArrivalDraw where
  gap : ℚ
  isMobile : Bool
  carId : ℕ
deriving DecidableEq

/-- The full random stream one step consumes. -/
structure RandInput where
  arrivals : List ArrivalDraw
  ready : List ℚ
  rebalanceCoin : Bool
deriving DecidableEq

/-- The engine state: simulated clock, parameters, queues, spots,
metrics, and the service clocks (refs of the source hook). -/
structure SimState where
  now : ℚ
  params : Params
  queues : Queues
  spots : List Spot
  metrics : Metrics
  nextArrival : JsNum
  orderClockA : JsNum
  orderClockB : JsNum
  payClock : JsNum
  pickupClock : JsNum
deriving DecidableEq

/-- The entrance the arrival code passes to chooseParkingSpot. -/
def entrance0 : ℚ × ℚ := (6, 70)

/-- The weight defaults of the chooseParkingSpot destructuring
(dist 1, exit 0.6, cong 0.8, angle 0.2). -/
def weights0 : SpotWeights := ⟨1, 3/5, 4/5, 1/5⟩

/-- Modelled from the source exp(): for a positive per-minute rate the
value is the pre-drawn sample; for rate ≤ 0 the source returns
Infinity. -/
def expDraw (ratePerMin : ℚ) (gap : ℚ) : JsNum :=
  if ratePerMin ≤ 0 then JsNum.inf else JsNum.num gap

/-- Toggle the occupied flag of the first spot with the given id,
modelling the in-place mutation of the spot object found by identity
(spot ids are unique in generateSpots). -/
def setOccupiedFirst (spots : List Spot) (i : ℕ) (occ : Bool) : List Spot :=
  match spots with
  | [] => []
  | s :: rest =>
      if s.id = i then { s with occupied := occ } :: rest
      else s :: setOccupiedFirst rest i occ

/-- The car object the arrival loop creates; the progress record
starts empty. -/
def mkCar (now : ℚ) (d : ArrivalDraw) : Car :=
  { id := d.carId
    arrival := now
    isMobile := d.isMobile
    lane := none
    progressOrder := none
    progressPay := none
    progressPickup := none
    parkingSpotId := none
    readyAt := none }

/-- Append a car to the order queue of the given lane. -/
def pushLane (qs : Queues) (L : Lane) (c : Car) : Queues :=
  match L with
  | Lane.A => { qs with orderA := qs.orderA ++ [c] }
  | Lane.B => { qs with orderB := qs.orderB ++ [c] }

/-- The curbside placement of an admitted arrival: the chosen spot is
marked occupied, the car records the spot id and joins the curbside
queue, arrivals and parked are counted. -/
def divertToCurbside (st : SimState) (d : ArrivalDraw) (spot : Spot) : SimState :=
  { st with
    metrics := { st.metrics with
      arrivals := st.metrics.arrivals + 1
      parked := st.metrics.parked + 1 }
    spots := setOccupiedFirst st.spots spot.id true
    queues := { st.queues with curbside := st.queues.curbside ++
      [{ mkCar st.now d with parkingSpotId := some spot.id }] } }

/-- The lane placement of an admitted arrival (the car.lane = lane;
queues.order[lane].push(car) lines, identical at both source call
sites): the car joins the order queue chosen by chooseBestLane and
the arrival is counted. -/
def joinLane (st : SimState) (d : ArrivalDraw) : SimState :=
  { st with
    metrics := { st.metrics with arrivals := st.metrics.arrivals + 1 }
    queues := pushLane st.queues (chooseBestLane st.queues st.params d.isMobile).1
      { mkCar st.now d with
          lane := some (chooseBestLane st.queues st.params d.isMobile).1 } }

/-- Admission of one arrival (the body of the arrivals while-loop):
count the arrival, route it with chooseBestLane, and either divert it
to a free parking spot or append it to the chosen order lane. -/
noncomputable def admitCar (st : SimState) (d : ArrivalDraw) : SimState :=
  if JsNum.jgt (chooseBestLane st.queues st.params d.isMobile).2
      (JsNum.num st.params.divertThresholdMin) then
    match chooseParkingSpot st.spots entrance0 weights0 with
    | some spot => divertToCurbside st d spot
    | none => joinLane st d
  else joinLane st d

/-- The line nextArrival.current += exp(arrivalRate/60) of the
source. -/
def nextArrivalBump (st : SimState) (gap : ℚ) : SimState :=
  { st with nextArrival :=
      JsNum.jadd st.nextArrival (expDraw (st.params.arrivalRate / 60) gap) }

/-- The arrivals while-loop: admit arrivals while the countdown is
≤ 0, adding a fresh exponential draw after each admission. -/
noncomputable def arrivalsLoop (st : SimState) : List ArrivalDraw → SimState
  | [] => st
  | d :: rest =>
      if JsNum.jle st.nextArrival (JsNum.num 0) then
        arrivalsLoop (nextArrivalBump (admitCar st d) d.gap) rest
      else st

/-- The arrivals phase: decrement the countdown by dt, then drain. -/
noncomputable def arrivalsPhase (dt : ℚ) (st : SimState)
    (draws : List ArrivalDraw) : SimState :=
  arrivalsLoop { st with nextArrival := JsNum.jsub st.nextArrival (JsNum.num dt) } draws

/-- One stage-service block of the source: if the queue is non-empty
and servers are present, advance the clock by dt scaled by the server
count and pop the head on expiry, resetting the clock to 1/rate;
otherwise clamp the clock to at least 1/rate.  Returns the remaining
queue, the completed car if any, and the new clock. -/
def stageService (q : List Car) (servers : ℤ) (rate dt : ℚ) (clock : JsNum) :
    List Car × Option Car × JsNum :=
  if 0 < q.length ∧ 0 < servers then
    let clock1 := JsNum.jsub clock (JsNum.num (dt * (servers : ℚ)))
    if JsNum.jle clock1 (JsNum.num 0) then
      match q with
      | [] => (q, none, clock1)
      | c :: restQ => (restQ, some c, JsNum.jdivQ 1 rate)
    else (q, none, clock1)
  else (q, none, JsNum.jmax clock (JsNum.jdivQ 1 rate))

/-- Read the order-service clock of a lane. -/
def getOrderClock (st : SimState) : Lane → JsNum
  | Lane.A => st.orderClockA
  | Lane.B => st.orderClockB

/-- Write the order-service clock of a lane. -/
def setOrderClock (st : SimState) : Lane → JsNum → SimState
  | Lane.A, c => { st with orderClockA := c }
  | Lane.B, c => { st with orderClockB := c }

/-- Replace the order queue of a lane. -/
def setOrderQ (qs : Queues) : Lane → List Car → Queues
  | Lane.A, l => { qs with orderA := l }
  | Lane.B, l => { qs with orderB := l }

/-- The order-service block for one lane: a completed car is stamped
and pushed to the pay queue. -/
def orderLaneService (dt : ℚ) (st : SimState) (L : Lane) : SimState :=
  let r := stageService (orderQ st.queues L) (orderServers st.params L)
      st.params.orderRate dt (getOrderClock st L)
  let st1 := setOrderClock st L r.2.2
  match r.2.1 with
  | some c =>
      { st1 with queues :=
          { setOrderQ st1.queues L r.1 with
            pay := st1.queues.pay ++ [{ c with progressOrder := some st.now }] } }
  | none => { st1 with queues := setOrderQ st1.queues L r.1 }

/-- The pay-service block: a completed car is stamped and pushed to
the pickup queue. -/
def payService (dt : ℚ) (st : SimState) : SimState :=
  let r := stageService st.queues.pay st.params.payServers st.params.payRate dt st.payClock
  let st1 := { st with payClock := r.2.2 }
  match r.2.1 with
  | some c =>
      { st1 with queues :=
          { st1.queues with
            pay := r.1
            pickup := st1.queues.pickup ++ [{ c with progressPay := some st.now }] } }
  | none => { st1 with queues := { st1.queues with pay := r.1 } }

/-- The completion bookkeeping shared by the pickup and curbside
blocks of the source: served++ then the incremental average update
avgWait := (avgWait*(served-1) + w)/served with the incremented
served. -/
def recordServed (m : Metrics) (w : ℚ) : Metrics :=
  { m with
    served := m.served + 1
    avgWait := (m.avgWait * (((m.served + 1 : ℕ) : ℚ) - 1) + w)
        / ((m.served + 1 : ℕ) : ℚ) }

/-- The pickup-service block: a completed car leaves the system and is
counted as served (its pickup progress stamp is on the discarded
object). -/
def pickupService (dt : ℚ) (st : SimState) : SimState :=
  let r := stageService st.queues.pickup st.params.pickupServers
      st.params.pickupRate dt st.pickupClock
  let st1 := { st with pickupClock := r.2.2 }
  match r.2.1 with
  | some c =>
      { st1 with
        queues := { st1.queues with pickup := r.1 }
        metrics := recordServed st1.metrics (st.now - c.arrival) }
  | none => { st1 with queues := { st1.queues with pickup := r.1 } }

/-- Release the spot a curbside car held, if any. -/
def releaseSpot (spots : List Spot) : Option ℕ → List Spot
  | none => spots
  | some i => setOccupiedFirst spots i false

/-- The curbside loop of the source walks the array backward with
splice, so each car is visited exactly once, later cars first; the
structural recursion below processes the tail before the head, which
is the same visiting order.  A car without a ready time is lazily
assigned arrival + draw (the source draws rand(4, 10)); a car whose
ready time has been reached releases its spot, leaves the queue, and
is recorded as served. -/
def curbsideStep (now : ℚ) :
    List Car → List Spot → Metrics → List ℚ →
      List Car × List Spot × Metrics × List ℚ
  | [], spots, m, draws => ([], spots, m, draws)
  | c :: rest, spots, m, draws =>
      let r := curbsideStep now rest spots m draws
      match c.readyAt with
      | none =>
          match r.2.2.2 with
          | [] => (c :: r.1, r.2.1, r.2.2.1, [])
          | u :: drest =>
              if c.arrival + u ≤ now then
                (r.1, releaseSpot r.2.1 c.parkingSpotId,
                  recordServed r.2.2.1 (now - c.arrival), drest)
              else ({ c with readyAt := some (c.arrival + u) } :: r.1,
                  r.2.1, r.2.2.1, drest)
      | some t =>
          if t ≤ now then
            (r.1, releaseSpot r.2.1 c.parkingSpotId,
              recordServed r.2.2.1 (now - c.arrival), r.2.2.2)
          else (c :: r.1, r.2.1, r.2.2.1, r.2.2.2)

/-- The curbside phase applied to the state. -/
def curbsidePhase (st : SimState) (draws : List ℚ) : SimState :=
  let r := curbsideStep st.now st.queues.curbside st.spots st.metrics draws
  { st with
    queues := { st.queues with curbside := r.1 }
    spots := r.2.1
    metrics := r.2.2.1 }

/-- Total work in process: the sum of the five queue lengths. -/
def wipOf (qs : Queues) : ℕ :=
  qs.orderA.length + qs.orderB.length + qs.pay.length
    + qs.pickup.length + qs.curbside.length

/-- The metrics phase: the max-WIP watermark and the history sample. -/
def metricsPhase (st : SimState) : SimState :=
  { st with metrics :=
      { st.metrics with
        maxWip := max st.metrics.maxWip (wipOf st.queues)
        history := st.metrics.history
            ++ [(st.now, wipOf st.queues, st.metrics.avgWait)] } }

/-- The optional rebalance trigger: when auto-rebalance is on and the
5-percent coin came up, run the rebalancer on the current queues and
parameters. -/
def rebalancePhase (st : SimState) (coin : Bool) : SimState :=
  if st.params.autoRebalance && coin then
    { st with params := (rebalanceServers st.queues st.params).2 }
  else st

/-- Embedding of the source function step(dt): arrivals, order A and
B service, pay, pickup, curbside completions, metrics, optional
rebalance; the clock advance scheduled by setNow lands in the result
while all reads inside the step observe the starting clock. -/
noncomputable def step (dt : ℚ) (st : SimState) (rnd : RandInput) : SimState :=
  let st1 := arrivalsPhase dt st rnd.arrivals
  let st2 := orderLaneService dt (orderLaneService dt st1 Lane.A) Lane.B
  let st3 := payService dt st2
  let st4 := pickupService dt st3
  let st5 := curbsidePhase st4 rnd.ready
  let st6 := metricsPhase st5
  let st7 := rebalancePhase st6 rnd.rebalanceCoin
  { st7 with now := st.now + dt }

/-- Embedding of the source function reset(): empty queues, fresh
spots, zeroed metrics and clocks, a fresh initial countdown, clock 0.
The regenerated spot inventory and the initial draw are inputs. -/
def resetState (p : Params) (spots : List Spot) (gap0 : ℚ) : SimState :=
  { now := 0
    params := p
    queues := { orderA := [], orderB := [], pay := [], pickup := [], curbside := [] }
    spots := spots
    metrics :=
      { arrivals := 0
        served := 0
        parked := 0
        avgWait := 0
        maxWip := 0
        history := [] }
    nextArrival := expDraw (p.arrivalRate / 60) gap0
    orderClockA := JsNum.num 0
    orderClockB := JsNum.num 0
    payClock := JsNum.num 0
    pickupClock := JsNum.num 0 }

/-! ## Conservation invariant (claim C2) -/

/-- All cars present in the queue network, in stage order. -/
def allCars (qs : Queues) : List Car :=
  qs.orderA ++ qs.orderB ++ qs.pay ++ qs.pickup ++ qs.curbside

/-- The multiset of ids of the cars currently in the queues. -/
def carIdsM (qs : Queues) : Multiset ℕ :=
  ((allCars qs).map Car.id : List ℕ)

/-- Conservation: cumulative arrivals equal cumulative served plus
the number of entities currently in the five queues. -/
def ConsInv (st : SimState) : Prop :=
  st.metrics.arrivals = st.metrics.served + Multiset.card (carIdsM st.queues)

/-- Distinctness: no car id occurs twice across the five queues (no
duplicated entity, and no entity in two queues at once). -/
def NodupIds (st : SimState) : Prop := (carIdsM st.queues).Nodup

/-- Freshness of a step input: the uid draws are pairwise distinct
and distinct from every car currently queued; this models object
identity and collision-free uid(). -/
def FreshIds (st : SimState) (rnd : RandInput) : Prop :=
  (↑(rnd.arrivals.map ArrivalDraw.carId) : Multiset ℕ).Nodup ∧
  Disjoint (↑(rnd.arrivals.map ArrivalDraw.carId) : Multiset ℕ) (carIdsM st.queues)

lemma carIdsM_pushLane (qs : Queues) (L : Lane) (c : Car) :
    carIdsM (pushLane qs L c) = carIdsM qs + {c.id} := by
  cases L <;>
    simp [pushLane, carIdsM, allCars, ← Multiset.coe_add, ← Multiset.cons_coe,
      ← Multiset.singleton_add] <;>
    abel

lemma joinLane_spec (st : SimState) (d : ArrivalDraw) :
    (joinLane st d).metrics.arrivals = st.metrics.arrivals + 1 ∧
    (joinLane st d).metrics.served = st.metrics.served ∧
    carIdsM (joinLane st d).queues = carIdsM st.queues + {d.carId} := by
  refine ⟨rfl, rfl, ?_⟩
  show carIdsM (pushLane st.queues _ _) = _
  rw [carIdsM_pushLane]
  simp [mkCar]

lemma divertToCurbside_spec (st : SimState) (d : ArrivalDraw) (spot : Spot) :
    (divertToCurbside st d spot).metrics.arrivals = st.metrics.arrivals + 1 ∧
    (divertToCurbside st d spot).metrics.served = st.metrics.served ∧
    carIdsM (divertToCurbside st d spot).queues = carIdsM st.queues + {d.carId} := by
  refine ⟨rfl, rfl, ?_⟩
  simp [divertToCurbside, carIdsM, allCars, mkCar, ← Multiset.coe_add,
    ← Multiset.cons_coe, ← Multiset.singleton_add]
  abel

lemma admitCar_spec (st : SimState) (d : ArrivalDraw) :
    (admitCar st d).metrics.arrivals = st.metrics.arrivals + 1 ∧
    (admitCar st d).metrics.served = st.metrics.served ∧
    carIdsM (admitCar st d).queues = carIdsM st.queues + {d.carId} := by
  unfold admitCar
  by_cases hgt : JsNum.jgt (chooseBestLane st.queues st.params d.isMobile).2
      (JsNum.num st.params.divertThresholdMin) = true
  · rw [if_pos hgt]
    cases hcps : chooseParkingSpot st.spots entrance0 weights0 with
    | some spot => exact divertToCurbside_spec st d spot
    | none => exact joinLane_spec st d
  · rw [if_neg hgt]
    exact joinLane_spec st d

lemma arrivalsLoop_spec (draws : List ArrivalDraw) : ∀ st : SimState,
    ∃ newIds : Multiset ℕ,
      newIds ≤ (↑(draws.map ArrivalDraw.carId) : Multiset ℕ) ∧
      (arrivalsLoop st draws).metrics.arrivals
        = st.metrics.arrivals + Multiset.card newIds ∧
      (arrivalsLoop st draws).metrics.served = st.metrics.served ∧
      carIdsM (arrivalsLoop st draws).queues = carIdsM st.queues + newIds := by
  induction draws with
  | nil =>
      intro st
      exact ⟨0, by simp, by simp [arrivalsLoop], by simp [arrivalsLoop],
        by simp [arrivalsLoop]⟩
  | cons d rest ih =>
      intro st
      rw [arrivalsLoop]
      by_cases hle : JsNum.jle st.nextArrival (JsNum.num 0) = true
      · rw [if_pos hle]
        obtain ⟨ha, hs, hq⟩ := admitCar_spec st d
        obtain ⟨newIds, hle2, ha2, hs2, hq2⟩ := ih (nextArrivalBump (admitCar st d) d.gap)
        refine ⟨{d.carId} + newIds, ?_, ?_, ?_, ?_⟩
        · rw [List.map_cons, ← Multiset.cons_coe, Multiset.singleton_add]
          exact Multiset.cons_le_cons _ hle2
        · rw [ha2]
          show (admitCar st d).metrics.arrivals + _ = _
          rw [ha, Multiset.card_add, Multiset.card_singleton]
          omega
        · rw [hs2]
          exact hs
        · rw [hq2]
          show carIdsM (admitCar st d).queues + newIds = _
          rw [hq]
          abel
      · rw [if_neg hle]
        exact ⟨0, by simp, by simp, by simp, by simp⟩

lemma arrivalsPhase_spec (dt : ℚ) (st : SimState) (draws : List ArrivalDraw) :
    ∃ newIds : Multiset ℕ,
      newIds ≤ (↑(draws.map ArrivalDraw.carId) : Multiset ℕ) ∧
      (arrivalsPhase dt st draws).metrics.arrivals
        = st.metrics.arrivals + Multiset.card newIds ∧
      (arrivalsPhase dt st draws).metrics.served = st.metrics.served ∧
      carIdsM (arrivalsPhase dt st draws).queues = carIdsM st.queues + newIds := by
  unfold arrivalsPhase
  exact arrivalsLoop_spec draws _

lemma stageService_cases (q : List Car) (servers : ℤ) (rate dt : ℚ) (clock : JsNum) :
    ((stageService q servers rate dt clock).2.1 = none ∧
      (stageService q servers rate dt clock).1 = q) ∨
    (∃ c, (stageService q servers rate dt clock).2.1 = some c ∧
      q = c :: (stageService q servers rate dt clock).1) := by
  unfold stageService
  by_cases h1 : 0 < q.length ∧ 0 < servers
  · rw [if_pos h1]
    by_cases h2 : JsNum.jle (JsNum.jsub clock (JsNum.num (dt * (servers : ℚ))))
        (JsNum.num 0) = true
    · rw [if_pos h2]
      cases q with
      | nil => exact Or.inl ⟨rfl, rfl⟩
      | cons c restQ => exact Or.inr ⟨c, rfl, rfl⟩
    · rw [if_neg h2]
      exact Or.inl ⟨rfl, rfl⟩
  · rw [if_neg h1]
    exact Or.inl ⟨rfl, rfl⟩

lemma setOrderQ_self (qs : Queues) (L : Lane) : setOrderQ qs L (orderQ qs L) = qs := by
  cases L <;> rfl

lemma setOrderClock_parts (st : SimState) (L : Lane) (c : JsNum) :
    (setOrderClock st L c).metrics = st.metrics ∧
    (setOrderClock st L c).queues = st.queues ∧
    (setOrderClock st L c).params = st.params ∧
    (setOrderClock st L c).now = st.now := by
  cases L <;> exact ⟨rfl, rfl, rfl, rfl⟩

lemma carIdsM_orderMove (qs : Queues) (L : Lane) (c c' : Car) (rest : List Car)
    (hq : orderQ qs L = c :: rest) (hid : c'.id = c.id) :
    carIdsM { setOrderQ qs L rest with pay := qs.pay ++ [c'] } = carIdsM qs := by
  cases L <;>
    (simp only [orderQ] at hq
     simp only [carIdsM, allCars, setOrderQ]
     rw [hq]
     simp [hid, ← Multiset.coe_add, ← Multiset.cons_coe, ← Multiset.singleton_add]
     abel)

lemma orderLaneService_spec (dt : ℚ) (st : SimState) (L : Lane) :
    (orderLaneService dt st L).metrics = st.metrics ∧
    (orderLaneService dt st L).params = st.params ∧
    (orderLaneService dt st L).now = st.now ∧
    carIdsM (orderLaneService dt st L).queues = carIdsM st.queues := by
  rcases stageService_cases (orderQ st.queues L) (orderServers st.params L)
      st.params.orderRate dt (getOrderClock st L) with ⟨hn, hq⟩ | ⟨c, hsome, hq⟩
  · cases L <;>
      (simp only [orderQ, orderServers, getOrderClock] at hn hq
       simp only [orderLaneService, orderQ, orderServers, getOrderClock,
         setOrderClock, setOrderQ]
       rw [hn, hq]
       exact ⟨rfl, rfl, rfl, rfl⟩)
  · cases L <;>
      (simp only [orderQ, orderServers, getOrderClock] at hsome hq
       simp only [orderLaneService, orderQ, orderServers, getOrderClock,
         setOrderClock, setOrderQ]
       rw [hsome]
       refine ⟨rfl, rfl, rfl, ?_⟩
       simp only [carIdsM, allCars]
       conv_rhs => rw [hq]
       simp [← Multiset.coe_add, ← Multiset.cons_coe, ← Multiset.singleton_add]
       abel)

lemma payService_spec (dt : ℚ) (st : SimState) :
    (payService dt st).metrics = st.metrics ∧
    (payService dt st).params = st.params ∧
    (payService dt st).now = st.now ∧
    carIdsM (payService dt st).queues = carIdsM st.queues := by
  rcases stageService_cases st.queues.pay st.params.payServers
      st.params.payRate dt st.payClock with ⟨hn, hq⟩ | ⟨c, hsome, hq⟩
  · simp only [payService]
    rw [hn, hq]
    exact ⟨rfl, rfl, rfl, rfl⟩
  · simp only [payService]
    rw [hsome]
    refine ⟨rfl, rfl, rfl, ?_⟩
    simp only [carIdsM, allCars]
    conv_rhs => rw [hq]
    simp [← Multiset.coe_add, ← Multiset.cons_coe, ← Multiset.singleton_add]
    abel

lemma recordServed_arrivals (m : Metrics) (w : ℚ) :
    (recordServed m w).arrivals = m.arrivals := rfl

lemma recordServed_served (m : Metrics) (w : ℚ) :
    (recordServed m w).served = m.served + 1 := rfl

lemma pickupService_spec (dt : ℚ) (st : SimState) :
    ∃ removed : Multiset ℕ,
      (pickupService dt st).metrics.arrivals = st.metrics.arrivals ∧
      (pickupService dt st).metrics.served = st.metrics.served + Multiset.card removed ∧
      (pickupService dt st).params = st.params ∧
      (pickupService dt st).now = st.now ∧
      carIdsM st.queues = removed + carIdsM (pickupService dt st).queues := by
  rcases stageService_cases st.queues.pickup st.params.pickupServers
      st.params.pickupRate dt st.pickupClock with ⟨hn, hq⟩ | ⟨c, hsome, hq⟩
  · refine ⟨0, ?_, ?_, ?_, ?_, ?_⟩ <;>
      (simp only [pickupService]
       rw [hn, hq]) <;>
      simp
  · simp only [pickupService, hsome]
    refine ⟨{c.id}, ?_, ?_, ?_, ?_, ?_⟩
    · trivial
    · rw [recordServed_served]
      simp
    · trivial
    · trivial
    · simp only [carIdsM, allCars]
      conv_lhs => rw [hq]
      simp [← Multiset.coe_add, ← Multiset.cons_coe, ← Multiset.singleton_add]
      abel

lemma curbsideStep_spec (now : ℚ) (cars : List Car) :
    ∀ (spots : List Spot) (m : Metrics) (draws : List ℚ),
    ∃ removed : Multiset ℕ,
      (curbsideStep now cars spots m draws).2.2.1.arrivals = m.arrivals ∧
      (curbsideStep now cars spots m draws).2.2.1.served
        = m.served + Multiset.card removed ∧
      (↑(cars.map Car.id) : Multiset ℕ)
        = removed + ↑((curbsideStep now cars spots m draws).1.map Car.id) := by
  induction cars with
  | nil =>
      intro spots m draws
      exact ⟨0, rfl, by simp [curbsideStep], by simp [curbsideStep]⟩
  | cons c rest ih =>
      intro spots m draws
      obtain ⟨removedT, ha, hs, hq⟩ := ih spots m draws
      simp only [curbsideStep]
      cases hready : c.readyAt with
      | none =>
          cases hd : (curbsideStep now rest spots m draws).2.2.2 with
          | nil =>
              refine ⟨removedT, ha, hs, ?_⟩
              simp only [List.map_cons, ← Multiset.cons_coe, ← Multiset.singleton_add]
              rw [hq]
              abel
          | cons u drest =>
              by_cases hnow : c.arrival + u ≤ now
              · simp only [hnow, if_true]
                refine ⟨{c.id} + removedT, ?_, ?_, ?_⟩
                · rw [recordServed_arrivals]
                  exact ha
                · rw [recordServed_served, hs, Multiset.card_add,
                    Multiset.card_singleton]
                  omega
                · simp only [List.map_cons, ← Multiset.cons_coe,
                    ← Multiset.singleton_add]
                  rw [hq]
                  abel
              · simp only [hnow, if_false]
                refine ⟨removedT, ha, hs, ?_⟩
                simp only [List.map_cons, ← Multiset.cons_coe,
                  ← Multiset.singleton_add]
                rw [show ({ c with readyAt := some (c.arrival + u) } : Car).id = c.id
                  from rfl, hq]
                abel
      | some t =>
          by_cases hnow : t ≤ now
          · simp only [hnow, if_true]
            refine ⟨{c.id} + removedT, ?_, ?_, ?_⟩
            · rw [recordServed_arrivals]
              exact ha
            · rw [recordServed_served, hs, Multiset.card_add, Multiset.card_singleton]
              omega
            · simp only [List.map_cons, ← Multiset.cons_coe, ← Multiset.singleton_add]
              rw [hq]
              abel
          · simp only [hnow, if_false]
            refine ⟨removedT, ha, hs, ?_⟩
            simp only [List.map_cons, ← Multiset.cons_coe, ← Multiset.singleton_add]
            rw [hq]
            abel

lemma curbsidePhase_spec (st : SimState) (draws : List ℚ) :
    ∃ removed : Multiset ℕ,
      (curbsidePhase st draws).metrics.arrivals = st.metrics.arrivals ∧
      (curbsidePhase st draws).metrics.served
        = st.metrics.served + Multiset.card removed ∧
      (curbsidePhase st draws).params = st.params ∧
      (curbsidePhase st draws).now = st.now ∧
      carIdsM st.queues = removed + carIdsM (curbsidePhase st draws).queues := by
  obtain ⟨removed, ha, hs, hq⟩ :=
    curbsideStep_spec st.now st.queues.curbside st.spots st.metrics draws
  refine ⟨removed, ha, hs, rfl, rfl, ?_⟩
  show carIdsM st.queues = removed
    + carIdsM { st.queues with
        curbside := (curbsideStep st.now st.queues.curbside st.spots st.metrics draws).1 }
  simp only [carIdsM, allCars]
  conv_lhs => rw [show st.queues.curbside
    = st.queues.curbside from rfl]
  simp only [List.map_append, ← Multiset.coe_add]
  rw [hq]
  abel

lemma metricsPhase_spec (st : SimState) :
    (metricsPhase st).metrics.arrivals = st.metrics.arrivals ∧
    (metricsPhase st).metrics.served = st.metrics.served ∧
    (metricsPhase st).params = st.params ∧
    (metricsPhase st).queues = st.queues :=
  ⟨rfl, rfl, rfl, rfl⟩

lemma rebalancePhase_spec (st : SimState) (coin : Bool) :
    (rebalancePhase st coin).metrics = st.metrics ∧
    (rebalancePhase st coin).queues = st.queues := by
  unfold rebalancePhase
  by_cases h : (st.params.autoRebalance && coin) = true
  · rw [if_pos h]
    exact ⟨rfl, rfl⟩
  · rw [if_neg h]
    exact ⟨rfl, rfl⟩

lemma step_spec (dt : ℚ) (st : SimState) (rnd : RandInput) :
    ∃ newIds removed : Multiset ℕ,
      newIds ≤ (↑(rnd.arrivals.map ArrivalDraw.carId) : Multiset ℕ) ∧
      (step dt st rnd).metrics.arrivals = st.metrics.arrivals + Multiset.card newIds ∧
      (step dt st rnd).metrics.served = st.metrics.served + Multiset.card removed ∧
      carIdsM st.queues + newIds = removed + carIdsM (step dt st rnd).queues := by
  obtain ⟨newIds, hle, ha1, hs1, hq1⟩ := arrivalsPhase_spec dt st rnd.arrivals
  obtain ⟨hmA, hpA, hnA, hqA⟩ :=
    orderLaneService_spec dt (arrivalsPhase dt st rnd.arrivals) Lane.A
  obtain ⟨hmB, hpB, hnB, hqB⟩ := orderLaneService_spec dt
    (orderLaneService dt (arrivalsPhase dt st rnd.arrivals) Lane.A) Lane.B
  obtain ⟨hmP, hpP, hnP, hqP⟩ := payService_spec dt
    (orderLaneService dt (orderLaneService dt (arrivalsPhase dt st rnd.arrivals)
      Lane.A) Lane.B)
  obtain ⟨remP, haPk, hsPk, hpPk, hnPk, hqPk⟩ := pickupService_spec dt
    (payService dt (orderLaneService dt (orderLaneService dt
      (arrivalsPhase dt st rnd.arrivals) Lane.A) Lane.B))
  obtain ⟨remC, haC, hsC, hpC, hnC, hqC⟩ := curbsidePhase_spec
    (pickupService dt (payService dt (orderLaneService dt (orderLaneService dt
      (arrivalsPhase dt st rnd.arrivals) Lane.A) Lane.B))) rnd.ready
  obtain ⟨hmR, hqR⟩ := rebalancePhase_spec
    (metricsPhase (curbsidePhase (pickupService dt (payService dt
      (orderLaneService dt (orderLaneService dt (arrivalsPhase dt st rnd.arrivals)
        Lane.A) Lane.B))) rnd.ready)) rnd.rebalanceCoin
  have hstep : step dt st rnd
      = { rebalancePhase (metricsPhase (curbsidePhase (pickupService dt
            (payService dt (orderLaneService dt (orderLaneService dt
              (arrivalsPhase dt st rnd.arrivals) Lane.A) Lane.B))) rnd.ready))
            rnd.rebalanceCoin with now := st.now + dt } := rfl
  refine ⟨newIds, remP + remC, hle, ?_, ?_, ?_⟩
  · rw [hstep]
    show (rebalancePhase _ _).metrics.arrivals = _
    rw [hmR]
    show (metricsPhase _).metrics.arrivals = _
    rw [(metricsPhase_spec _).1, haC, haPk, hmP, hmB, hmA, ha1]
  · rw [hstep]
    show (rebalancePhase _ _).metrics.served = _
    rw [hmR]
    show (metricsPhase _).metrics.served = _
    rw [(metricsPhase_spec _).2.1, hsC, hsPk, hmP, hmB, hmA, hs1,
      Multiset.card_add]
    omega
  · rw [hstep]
    show _ = remP + remC + carIdsM (rebalancePhase _ _).queues
    rw [hqR]
    show _ = remP + remC + carIdsM (metricsPhase _).queues
    rw [(metricsPhase_spec _).2.2.2]
    calc carIdsM st.queues + newIds
        = carIdsM (arrivalsPhase dt st rnd.arrivals).queues := hq1.symm
      _ = carIdsM (orderLaneService dt (arrivalsPhase dt st rnd.arrivals)
            Lane.A).queues := hqA.symm
      _ = carIdsM (orderLaneService dt (orderLaneService dt
            (arrivalsPhase dt st rnd.arrivals) Lane.A) Lane.B).queues := hqB.symm
      _ = carIdsM (payService dt (orderLaneService dt (orderLaneService dt
            (arrivalsPhase dt st rnd.arrivals) Lane.A) Lane.B)).queues := hqP.symm
      _ = remP + carIdsM (pickupService dt (payService dt (orderLaneService dt
            (orderLaneService dt (arrivalsPhase dt st rnd.arrivals) Lane.A)
            Lane.B))).queues := hqPk
      _ = remP + (remC + carIdsM (curbsidePhase (pickupService dt (payService dt
            (orderLaneService dt (orderLaneService dt
              (arrivalsPhase dt st rnd.arrivals) Lane.A) Lane.B))) rnd.ready).queues) := by
            rw [hqC]
      _ = remP + remC + carIdsM (curbsidePhase (pickupService dt (payService dt
            (orderLaneService dt (orderLaneService dt
              (arrivalsPhase dt st rnd.arrivals) Lane.A) Lane.B))) rnd.ready).queues := by
            abel

/-- C2: starting from a reset state, after every engine step the
cumulative arrivals counter equals the cumulative served counter plus
the number of entities currently in the order-A, order-B, pay,
pickup and curbside queues, and no entity is dropped, duplicated or
present in two queues at once (the ids across the five queues stay
pairwise distinct).  Stated as an inductive invariant: it holds at
reset, and every step whose uid draws are fresh preserves it. -/
theorem engine_conservation :
    (∀ (p : Params) (spots : List Spot) (gap0 : ℚ),
      ConsInv (resetState p spots gap0) ∧ NodupIds (resetState p spots gap0)) ∧
    (∀ (dt : ℚ) (st : SimState) (rnd : RandInput),
      ConsInv st → NodupIds st → FreshIds st rnd →
      ConsInv (step dt st rnd) ∧ NodupIds (step dt st rnd)) := by
  constructor
  · intro p spots gap0
    constructor <;> simp [ConsInv, NodupIds, carIdsM, allCars, resetState]
  · intro dt st rnd hc hn hf
    obtain ⟨newIds, removed, hle, ha, hs, hq⟩ := step_spec dt st rnd
    have hcard := congrArg Multiset.card hq
    rw [Multiset.card_add, Multiset.card_add] at hcard
    constructor
    · unfold ConsInv at hc ⊢
      omega
    · unfold NodupIds at hn ⊢
      have hnodup : (carIdsM st.queues + newIds).Nodup := by
        rw [Multiset.nodup_add]
        refine ⟨hn, Multiset.nodup_of_le hle hf.1, Multiset.disjoint_left.mpr ?_⟩
        intro a ha1 ha2
        exact (Multiset.disjoint_left.mp hf.2) (Multiset.mem_of_le hle ha2) ha1
      rw [hq] at hnodup
      exact Multiset.nodup_of_le (Multiset.le_add_left _ _) hnodup

/-- Witness for C2: one step from a reset state with one fresh
pre-drawn arrival keeps both invariants. -/
theorem engine_conservation_witness :
    ConsInv (step (2/25) (resetState ⟨36, 7/20, 7, 4/5, 13/10, 1, 1, 1, 1, 1, true⟩ [] 1)
        ⟨[⟨1, false, 5⟩], [], false⟩) ∧
    NodupIds (step (2/25) (resetState ⟨36, 7/20, 7, 4/5, 13/10, 1, 1, 1, 1, 1, true⟩ [] 1)
        ⟨[⟨1, false, 5⟩], [], false⟩) :=
  engine_conservation.2 (2/25)
    (resetState ⟨36, 7/20, 7, 4/5, 13/10, 1, 1, 1, 1, 1, true⟩ [] 1)
    ⟨[⟨1, false, 5⟩], [], false⟩
    (by simp [ConsInv, carIdsM, allCars, resetState])
    (by simp [NodupIds, carIdsM, allCars, resetState])
    (by
      constructor
      · simp
      · simp [carIdsM, allCars, resetState])

lemma pushLane_curbside (qs : Queues) (L : Lane) (c : Car) :
    (pushLane qs L c).curbside = qs.curbside := by
  cases L <;> rfl

/-- C6: during the arrivals phase an arriving entity is placed in the
curbside queue (with the chosen spot marked occupied and the parked
counter incremented) if and only if the chosen lane eta strictly
exceeds the divert threshold and a free unreserved spot exists; in
every other case — eta not exceeding the threshold, or no eligible
spot — the entity is appended to the chosen order lane with curbside
and parked untouched, and the no-spot case is never a failure of the
step: the arrival is admitted and counted either way. -/
theorem divert_decision (st : SimState) (d : ArrivalDraw) :
    ((admitCar st d).metrics.parked = st.metrics.parked + 1 ↔
      (JsNum.jgt (chooseBestLane st.queues st.params d.isMobile).2
          (JsNum.num st.params.divertThresholdMin) = true ∧
        (chooseParkingSpot st.spots entrance0 weights0).isSome = true)) ∧
    (∀ spot, JsNum.jgt (chooseBestLane st.queues st.params d.isMobile).2
          (JsNum.num st.params.divertThresholdMin) = true →
      chooseParkingSpot st.spots entrance0 weights0 = some spot →
      (admitCar st d).queues.curbside
        = st.queues.curbside ++ [{ mkCar st.now d with parkingSpotId := some spot.id }] ∧
      (admitCar st d).spots = setOccupiedFirst st.spots spot.id true ∧
      (admitCar st d).metrics.parked = st.metrics.parked + 1) ∧
    ((JsNum.jgt (chooseBestLane st.queues st.params d.isMobile).2
          (JsNum.num st.params.divertThresholdMin) = false ∨
        chooseParkingSpot st.spots entrance0 weights0 = none) →
      (admitCar st d).queues.curbside = st.queues.curbside ∧
      (admitCar st d).queues
        = pushLane st.queues (chooseBestLane st.queues st.params d.isMobile).1
            { mkCar st.now d with
                lane := some (chooseBestLane st.queues st.params d.isMobile).1 } ∧
      (admitCar st d).metrics.parked = st.metrics.parked) ∧
    (admitCar st d).metrics.arrivals = st.metrics.arrivals + 1 := by
  by_cases hgt : JsNum.jgt (chooseBestLane st.queues st.params d.isMobile).2
      (JsNum.num st.params.divertThresholdMin) = true
  · cases hcps : chooseParkingSpot st.spots entrance0 weights0 with
    | some spot =>
        have hadm : admitCar st d = divertToCurbside st d spot := by
          unfold admitCar
          rw [if_pos hgt, hcps]
        refine ⟨?_, ?_, ?_, ?_⟩
        · rw [hadm]
          constructor
          · intro _
            exact ⟨hgt, rfl⟩
          · intro _
            rfl
        · intro spot' h1 h2
          injection h2 with h2
          subst h2
          rw [hadm]
          exact ⟨rfl, rfl, rfl⟩
        · intro hor
          rcases hor with h | h
          · rw [hgt] at h
            exact absurd h (by simp)
          · exact Option.noConfusion h
        · rw [hadm]
          rfl
    | none =>
        have hadm : admitCar st d = joinLane st d := by
          unfold admitCar
          rw [if_pos hgt, hcps]
        refine ⟨?_, ?_, ?_, ?_⟩
        · rw [hadm]
          constructor
          · intro hp
            exfalso
            have hp' : st.metrics.parked = st.metrics.parked + 1 := hp
            omega
          · rintro ⟨-, hsome⟩
            simp at hsome
        · intro spot' h1 h2
          exact Option.noConfusion h2
        · intro _
          rw [hadm]
          exact ⟨pushLane_curbside _ _ _, rfl, rfl⟩
        · rw [hadm]
          rfl
  · have hadm : admitCar st d = joinLane st d := by
      unfold admitCar
      rw [if_neg hgt]
    refine ⟨?_, ?_, ?_, ?_⟩
    · rw [hadm]
      constructor
      · intro hp
        exfalso
        have hp' : st.metrics.parked = st.metrics.parked + 1 := hp
        omega
      · rintro ⟨h1, -⟩
        exact absurd h1 hgt
    · intro spot' h1 h2
      exact absurd h1 hgt
    · intro _
      rw [hadm]
      exact ⟨pushLane_curbside _ _ _, rfl, rfl⟩
    · rw [hadm]
      rfl

/-- Witness for C6 in the best-effort fallback case: with no spots at
all, chooseParkingSpot signals none and the admitted arrival joins
the chosen lane with curbside and parked unchanged. -/
theorem divert_decision_witness :
    (admitCar (resetState ⟨36, 7/20, 7, 4/5, 13/10, 1, 1, 1, 1, 1, true⟩ [] 1)
        ⟨1, true, 9⟩).queues.curbside
      = (resetState ⟨36, 7/20, 7, 4/5, 13/10, 1, 1, 1, 1, 1, true⟩ [] 1).queues.curbside ∧
    (admitCar (resetState ⟨36, 7/20, 7, 4/5, 13/10, 1, 1, 1, 1, 1, true⟩ [] 1)
        ⟨1, true, 9⟩).queues
      = pushLane (resetState ⟨36, 7/20, 7, 4/5, 13/10, 1, 1, 1, 1, 1, true⟩ [] 1).queues
          (chooseBestLane
            (resetState ⟨36, 7/20, 7, 4/5, 13/10, 1, 1, 1, 1, 1, true⟩ [] 1).queues
            (resetState ⟨36, 7/20, 7, 4/5, 13/10, 1, 1, 1, 1, 1, true⟩ [] 1).params
            true).1
          { mkCar (resetState ⟨36, 7/20, 7, 4/5, 13/10, 1, 1, 1, 1, 1, true⟩ [] 1).now
              ⟨1, true, 9⟩ with
              lane := some (chooseBestLane
                (resetState ⟨36, 7/20, 7, 4/5, 13/10, 1, 1, 1, 1, 1, true⟩ [] 1).queues
                (resetState ⟨36, 7/20, 7, 4/5, 13/10, 1, 1, 1, 1, 1, true⟩ [] 1).params
                true).1 } ∧
    (admitCar (resetState ⟨36, 7/20, 7, 4/5, 13/10, 1, 1, 1, 1, 1, true⟩ [] 1)
        ⟨1, true, 9⟩).metrics.parked
      = (resetState ⟨36, 7/20, 7, 4/5, 13/10, 1, 1, 1, 1, 1, true⟩ [] 1).metrics.parked :=
  (divert_decision (resetState ⟨36, 7/20, 7, 4/5, 13/10, 1, 1, 1, 1, 1, true⟩ [] 1)
      ⟨1, true, 9⟩).2.2.1 (Or.inr rfl)

lemma recordServed_fold_invariant (ws : List ℚ) :
    ∀ m : Metrics,
      (ws.foldl recordServed m).served = m.served + ws.length ∧
      (ws.foldl recordServed m).avgWait * ((m.served : ℚ) + (ws.length : ℚ))
        = m.avgWait * (m.served : ℚ) + ws.sum := by
  induction ws with
  | nil =>
      intro m
      constructor
      · simp
      · simp
  | cons w ws ih =>
      intro m
      have h := ih (recordServed m w)
      have hs : ((recordServed m w).served : ℚ) = (m.served : ℚ) + 1 := by
        simp [recordServed]
      have hrs : (recordServed m w).avgWait * ((m.served : ℚ) + 1)
          = m.avgWait * (m.served : ℚ) + w := by
        simp only [recordServed]
        push_cast
        have hn : ((m.served : ℚ) + 1) ≠ 0 := by positivity
        field_simp
      constructor
      · rw [List.foldl_cons, h.1]
        simp only [recordServed, List.length_cons]
        omega
      · rw [List.foldl_cons]
        have h2 := h.2
        rw [hs, hrs] at h2
        simp only [List.length_cons, List.sum_cons]
        push_cast
        linear_combination h2

/-- C9: the incrementally maintained running average wait — updated on
each completion by avgWait := (avgWait*(served-1)+w)/served with served
already counting that completion — satisfies the Welford form
newAvg = oldAvg + (w - oldAvg)/count at every update, and starting from
a reset state the value after any sequence of completions equals the
arithmetic mean of all the recorded wait samples (over exact
arithmetic). -/
theorem running_average_refinement :
    (∀ (m : Metrics) (w : ℚ),
      (recordServed m w).avgWait
        = m.avgWait + (w - m.avgWait) / ((m.served : ℚ) + 1)) ∧
    (∀ (p : Params) (spots : List Spot) (gap0 : ℚ) (ws : List ℚ),
      (ws.foldl recordServed (resetState p spots gap0).metrics).avgWait
        = ws.sum / ((ws.length : ℕ) : ℚ)) := by
  constructor
  · intro m w
    simp only [recordServed]
    push_cast
    have hn : ((m.served : ℚ) + 1) ≠ 0 := by positivity
    field_simp
    ring
  · intro p spots gap0 ws
    cases ws with
    | nil => simp [resetState]
    | cons w ws =>
        have h := (recordServed_fold_invariant (w :: ws)
          (resetState p spots gap0).metrics).2
        have hm : (resetState p spots gap0).metrics.served = 0 := rfl
        have ha : (resetState p spots gap0).metrics.avgWait = 0 := rfl
        rw [hm, ha] at h
        have hlen : (((w :: ws).length : ℕ) : ℚ) ≠ 0 := by
          simp only [List.length_cons]
          push_cast
          have hpos : (0 : ℚ) < (ws.length : ℚ) + 1 := by positivity
          exact ne_of_gt hpos
        rw [eq_div_iff hlen]
        simpa using h
